import Mathlib

/-!
# A shallow embedding of `AsyncCollectiveCreator::Run`
  (xla/service/async_collective_creator.cc)

The pass converts synchronous collective instructions (AllReduce, AllGather,
CollectivePermute, AllToAll) of an HLO module into asynchronous start/done
pairs, and keeps the module schedule consistent.

Modelling conventions:
* `HloInstruction*` pointers become `Nat` identifiers; a computation owns a
  list of instructions together with a fresh-id counter `nextId`.
* opaque data carried verbatim across the rewrite (reduction computation,
  replica groups, channel id, source-target pairs, dynamic-slice sizes, ...)
  is folded into an opaque `collectiveData : Nat` field; metadata and the
  backend configuration are opaque `Nat` fields as well.
* `StatusOr` failures returned by `Run` become `RunResult.err`; crashes
  (`CHECK_EQ`, `StatusOr::value()` on a non-ok status, out-of-range operand
  access) become `RunResult.fatal`, carrying the module state at the point
  of the crash.
* the external shape-inference collaborator
  `ShapeInference::InferCollectivePermuteStartShape` is a parameter `infer`
  of the pass.
-/

set_option linter.unusedVariables false

namespace xla

/-- Instruction opcodes relevant to the pass; every other opcode is
`other n`. -/
inductive HloOpcode where
  | allReduce
  | allGather
  | collectivePermute
  | allToAll
  | allReduceStart
  | allReduceDone
  | allGatherStart
  | allGatherDone
  | collectivePermuteStart
  | collectivePermuteDone
  | asyncStart
  | asyncDone
  | customCall
  | other (n : Nat)
deriving DecidableEq, Repr

/-- Result shapes, as far as the pass distinguishes them: the scalar `U32`
shape, the token shape, tuple shapes, and everything else (`base n`). -/
inductive Shape where
  | u32scalar : Shape
  | token : Shape
  | tuple : List Shape → Shape
  | base : Nat → Shape

/-- An HLO instruction: identity, opcode, result shape, operand references
(ids of instructions of the same computation), plus the attributes the pass
reads or writes. -/
structure Instruction where
  id : Nat := 0
  opcode : HloOpcode
  shape : Shape
  operands : List Nat := []
  metadata : Nat := 0
  backendConfig : Nat := 0
  collectiveData : Nat := 0
  customCallTarget : String := ""
  customCallHasSideEffect : Bool := false
  controlPredecessors : List Nat := []
  hasDisjointReadWriteRegions : Bool := false

/-- The `ReplacedAsync` struct of the pass: the replacement pair recorded
for a rewritten collective (instruction ids instead of pointers). -/
structure ReplacedAsync where
  start : Nat
  done : Nat
deriving DecidableEq, Repr

/-- An HLO computation: insertion-ordered instruction list, root, execution
thread, fusion flag, and the fresh-id counter used by `addInstruction`. -/
structure Computation where
  id : Nat := 0
  executionThread : String := ""
  isFusionComputation : Bool := false
  instructions : List Instruction
  rootId : Nat := 0
  nextId : Nat

/-- An HLO module: computations plus an optional schedule assigning to (some)
computation ids a total order of instruction ids. -/
structure HloModule where
  computations : List Computation
  schedule : Option (List (Nat × List Nat)) := none

instance : Inhabited Shape := ⟨Shape.token⟩

instance : Inhabited Instruction := ⟨{ opcode := .other 0, shape := Shape.token }⟩

instance : Inhabited Computation := ⟨{ instructions := [], nextId := 0 }⟩

instance : Inhabited ReplacedAsync := ⟨⟨0, 0⟩⟩

/-- Models `HloComputation::AddInstruction`: append the instruction with a
fresh id; returns the new computation and the id of the added instruction. -/
def Computation.addInstruction (c : Computation) (i : Instruction) :
    Computation × Nat :=
  ({ c with
      instructions := c.instructions ++ [{ i with id := c.nextId }],
      nextId := c.nextId + 1 },
   c.nextId)

/-- In-place mutation of the instruction with the given id (models mutation
through an `HloInstruction*`, e.g. `set_metadata`). -/
def Computation.modifyInstruction (c : Computation) (id : Nat)
    (f : Instruction → Instruction) : Computation :=
  { c with instructions :=
      c.instructions.map (fun i => if i.id = id then f i else i) }

/-- Pointer dereference: the instruction of `c` with the given id. -/
def Computation.find? (c : Computation) (id : Nat) : Option Instruction :=
  c.instructions.find? (fun i => i.id == id)

/-- The shape of the instruction with the given id (the pass only reads
operand shapes of instructions that exist; `token` is a junk default). -/
def Computation.operandShape (c : Computation) (id : Nat) : Shape :=
  match c.find? id with
  | some i => i.shape
  | none => Shape.token

/-- Rewiring of one user: every operand reference to `oldId` is redirected
to `newId`. -/
def remapOperands (oldId newId : Nat) (i : Instruction) : Instruction :=
  { i with operands := i.operands.map (fun o => if o = oldId then newId else o) }

/-- Models `start->set_metadata(orig->metadata())` followed by
`start->CopyBackendConfigFrom(orig)`. -/
def setMetadataAndBackendConfig (src s : Instruction) : Instruction :=
  { s with metadata := src.metadata, backendConfig := src.backendConfig }

/-- Models `SetDisjointReadWriteRegionsAttr`. -/
def setDisjointAttr (s : Instruction) : Instruction :=
  { s with hasDisjointReadWriteRegions := true }

/-- Models the effect of `pred->AddControlDependencyTo(s)` on `s`. -/
def addControlPredecessor (predId : Nat) (s : Instruction) : Instruction :=
  { s with controlPredecessors := s.controlPredecessors ++ [predId] }

/-- Models `set_custom_call_has_side_effect(true)`. -/
def setSideEffect (s : Instruction) : Instruction :=
  { s with customCallHasSideEffect := true }

/-- Models `HloComputation::ReplaceInstruction(old, new)`: rewire every user
of `old` to `new`, fix up the root, and remove `old`. -/
def Computation.replaceInstruction (c : Computation) (oldId newId : Nat) :
    Computation :=
  { c with
    instructions :=
      (c.instructions.filter (fun i => i.id ≠ oldId)).map
        (remapOperands oldId newId),
    rootId := if c.rootId = oldId then newId else c.rootId }

/-- Models `HloComputation::ReplaceWithNewInstruction(old, ni)`: add `ni` to
the computation, then replace `old` by it. -/
def Computation.replaceWithNewInstruction (c : Computation) (oldId : Nat)
    (ni : Instruction) : Computation × Nat :=
  let (c1, newId) := c.addInstruction ni
  (c1.replaceInstruction oldId newId, newId)

/-- The reasons the pass can crash (as opposed to returning a non-ok
status). -/
inductive FatalReason where
  | operandOutOfRange
  | checkEqOperandCount (n : Nat)
  | statusOrValue (msg : String)
deriving DecidableEq, Repr

/-- The observable outcome of `Run`: the `StatusOr<bool>` return value
(`ok` / `err`), or a crash together with the module state at the crash. -/
inductive RunResult where
  | ok (m : HloModule) (changed : Bool)
  | err (msg : String)
  | fatal (reason : FatalReason) (m : HloModule)

/-- The pass configuration: the four per-kind conversion predicates and the
predicate selecting split send/recv tracking for collective-permute. -/
structure AsyncCollectiveCreator where
  convertAllReduce : Instruction → Bool
  convertAllGather : Instruction → Bool
  convertCollectivePermute : Instruction → Bool
  convertAllToAll : Instruction → Bool
  trackSendRecvSeparately : Instruction → Bool

namespace AsyncCollectiveCreator

/-- The candidate filter of the scan loop: a supported opcode whose
conversion predicate accepts the instruction. -/
def matchCollective (cfg : AsyncCollectiveCreator) (i : Instruction) : Bool :=
  (i.opcode == .allReduce && cfg.convertAllReduce i) ||
  (i.opcode == .allGather && cfg.convertAllGather i) ||
  (i.opcode == .collectivePermute && cfg.convertCollectivePermute i) ||
  (i.opcode == .allToAll && cfg.convertAllToAll i)

end AsyncCollectiveCreator

/-- The AllReduce branch: create an `AllReduceStart` with the original
shape, operands and collective configuration, copy metadata and backend
config onto it, and replace the original with a new unary
`AllReduceDone`. -/
def rewriteAllReduce (c : Computation) (ar : Instruction) :
    Computation × ReplacedAsync :=
  let p1 := c.addInstruction
    { opcode := .allReduceStart, shape := ar.shape, operands := ar.operands,
      collectiveData := ar.collectiveData }
  let c1 := p1.1
  let startId := p1.2
  let c2 := c1.modifyInstruction startId (setMetadataAndBackendConfig ar)
  let p2 := c2.replaceWithNewInstruction ar.id
    { opcode := .allReduceDone, shape := ar.shape, operands := [startId] }
  (p2.1, ⟨startId, p2.2⟩)

/-- The AllGather branch: the start's shape is a 2-tuple of (operand shape,
or tuple of operand shapes when there are several; original result shape). -/
def rewriteAllGather (c : Computation) (ag : Instruction) :
    Computation × ReplacedAsync :=
  let operandShapes := ag.operands.map c.operandShape
  let shape := Shape.tuple
    [if ag.operands.length > 1 then Shape.tuple operandShapes
     else operandShapes.headD Shape.token,
     ag.shape]
  let p1 := c.addInstruction
    { opcode := .allGatherStart, shape := shape, operands := ag.operands,
      collectiveData := ag.collectiveData }
  let c1 := p1.1
  let startId := p1.2
  let c2 := c1.modifyInstruction startId (setMetadataAndBackendConfig ag)
  let p2 := c2.replaceWithNewInstruction ag.id
    { opcode := .allGatherDone, shape := ag.shape, operands := [startId] }
  (p2.1, ⟨startId, p2.2⟩)

/-- The completion side of the CollectivePermute branch (source lines
148-186): copy metadata and backend config onto the start, then either
create a single unary `CollectivePermuteDone`, or, under split tracking, a
side-effecting recv-done/send-done custom-call pair ordered by a control
edge with recv-done as the externally visible done handle; finally replace
the original instruction by the done handle. -/
def cpFinish (track : Instruction → Bool) (c1 : Computation) (startId : Nat)
    (cp : Instruction) : Computation × ReplacedAsync :=
  let c2 := c1.modifyInstruction startId (setMetadataAndBackendConfig cp)
  if !track cp then
    let p2 := c2.addInstruction
      { opcode := .collectivePermuteDone, shape := cp.shape,
        operands := [startId] }
    let c3 := p2.1.replaceInstruction cp.id p2.2
    (c3, ⟨startId, p2.2⟩)
  else
    let pr := c2.addInstruction
      { opcode := .customCall, shape := cp.shape, operands := [startId],
        customCallTarget := "$cp_recv_done" }
    let recvId := pr.2
    let ps := pr.1.addInstruction
      { opcode := .customCall, shape := .token, operands := [startId],
        customCallTarget := "$cp_send_done" }
    let sendId := ps.2
    let c5 := ps.1.modifyInstruction sendId (addControlPredecessor recvId)
    let c6 := c5.modifyInstruction sendId setSideEffect
    let c7 := c6.modifyInstruction recvId setSideEffect
    let c8 := c7.replaceInstruction cp.id recvId
    (c8, ⟨startId, recvId⟩)

/-- The CollectivePermute branch.  The single-operand variant builds the
start shape directly as a 4-tuple; the four-operand variant obtains it from
the shape-inference collaborator, whose failure crashes the process
(`StatusOr::value()`), and propagates the disjoint-read-write-regions
attribute.  Completion is handled by `cpFinish`. -/
def rewriteCollectivePermute (infer : List Shape → Except String Shape)
    (track : Instruction → Bool) (c : Computation) (cp : Instruction) :
    Except FatalReason (Computation × ReplacedAsync) :=
  match hop : cp.operands with
  | [] => .error .operandOutOfRange
  | operand :: _ =>
    let startResult : Except FatalReason (Computation × Nat) :=
      if cp.operands.length = 1 then
        .ok (c.addInstruction
          { opcode := .collectivePermuteStart,
            shape := Shape.tuple
              [c.operandShape operand, cp.shape, .u32scalar, .u32scalar],
            operands := [operand],
            collectiveData := cp.collectiveData })
      else if h4 : cp.operands.length = 4 then
        match infer (cp.operands.map c.operandShape) with
        | .error e => .error (.statusOrValue e)
        | .ok sh =>
          let p1 := c.addInstruction
            { opcode := .collectivePermuteStart, shape := sh,
              operands := cp.operands, collectiveData := cp.collectiveData }
          .ok (if cp.hasDisjointReadWriteRegions then
                 (p1.1.modifyInstruction p1.2 setDisjointAttr, p1.2)
               else p1)
      else .error (.checkEqOperandCount cp.operands.length)
    match startResult with
    | .error r => .error r
    | .ok (c1, startId) => .ok (cpFinish track c1 startId cp)

/-- Modelled from the spec: `HloComputation::CreateAsyncInstructions` (not
part of this source file) — the generic two-phase async constructor used for
AllToAll.  It wraps the instruction into an async-start / async-done pair
parameterized by the given context shapes, copies metadata and backend
configuration onto the new instructions, rewires every user of the original
to the done instruction and removes the original; the done's first operand
is the start. -/
def Computation.CreateAsyncInstructions (c : Computation) (instr : Instruction)
    (contextShapes : List Shape) : Computation × ReplacedAsync :=
  let operandShapes := instr.operands.map c.operandShape
  let p1 := c.addInstruction
    { opcode := .asyncStart,
      shape := Shape.tuple
        ([Shape.tuple operandShapes, instr.shape] ++ contextShapes),
      operands := instr.operands,
      metadata := instr.metadata,
      backendConfig := instr.backendConfig,
      collectiveData := instr.collectiveData }
  let c1 := p1.1
  let startId := p1.2
  let p2 := c1.addInstruction
    { opcode := .asyncDone, shape := instr.shape, operands := [startId],
      metadata := instr.metadata, backendConfig := instr.backendConfig }
  (p2.1.replaceInstruction instr.id p2.2, ⟨startId, p2.2⟩)

/-- The AllToAll branch: delegate to `CreateAsyncInstructions` with a pair
of scalar `U32` synchronization shapes. -/
def rewriteAllToAll (c : Computation) (ata : Instruction) :
    Computation × ReplacedAsync :=
  c.CreateAsyncInstructions ata [Shape.u32scalar, Shape.u32scalar]

/-- The body of one iteration of the rewrite loop: dispatch on the
candidate's kind (the `DynCast` chain).  Returns the updated computation,
the replacement pair when a rewrite happened, and the value of `changed`
contributed by this iteration; a crash carries the computation state at the
crash. -/
def rewriteInstruction (infer : List Shape → Except String Shape)
    (cfg : AsyncCollectiveCreator) (c : Computation) (instr : Instruction) :
    Except (FatalReason × Computation)
      (Computation × Option ReplacedAsync × Bool) :=
  match instr.opcode with
  | .allReduce =>
    let p := rewriteAllReduce c instr
    .ok (p.1, some p.2, true)
  | .allGather =>
    let p := rewriteAllGather c instr
    .ok (p.1, some p.2, true)
  | .collectivePermute =>
    match rewriteCollectivePermute infer cfg.trackSendRecvSeparately c instr with
    | .error r => .error (r, c)
    | .ok p => .ok (p.1, some p.2, true)
  | .allToAll =>
    let p := rewriteAllToAll c instr
    .ok (p.1, some p.2, true)
  | _ => .ok (c, none, false)

/-- One iteration of the rewrite loop: look up the recorded candidate (the
frozen pointer's live target) and hand it to `rewriteInstruction`. -/
def rewriteCandidate (infer : List Shape → Except String Shape)
    (cfg : AsyncCollectiveCreator) (c : Computation) (id : Nat) :
    Except (FatalReason × Computation)
      (Computation × Option ReplacedAsync × Bool) :=
  match c.find? id with
  | none => .ok (c, none, false)
  | some instr => rewriteInstruction infer cfg c instr

/-- The rewrite loop over the frozen candidate list.  `su` is
`should_update_schedule`: only then are replacement pairs recorded. -/
def processCandidates (infer : List Shape → Except String Shape)
    (cfg : AsyncCollectiveCreator) (su : Bool) (c : Computation)
    (ids : List Nat) (pairs : List (Nat × ReplacedAsync)) (changed : Bool) :
    Except (FatalReason × Computation)
      (Computation × List (Nat × ReplacedAsync) × Bool) :=
  match ids with
  | [] => .ok (c, pairs, changed)
  | id :: rest =>
    match rewriteCandidate infer cfg c id with
    | .error e => .error e
    | .ok (c', pr, ch) =>
      processCandidates infer cfg su c' rest
        (match pr with
         | some p => if su then pairs ++ [(id, p)] else pairs
         | none => pairs)
        (changed || ch)

/-- The Schedule Patcher: rebuild the sequence, emitting `start, done` in
the slot of every replaced instruction and keeping every other slot. -/
def patchSchedule (pairs : List (Nat × ReplacedAsync)) (seq : List Nat) :
    List Nat :=
  seq.flatMap (fun id =>
    match List.lookup id pairs with
    | some p => [p.start, p.done]
    | none => [id])

/-- Per-computation processing: scan for candidates (two-phase: collect then
mutate); if there are none, leave the computation untouched without looking
at the schedule; otherwise rewrite every candidate and, when the computation
is scheduled (`sched = some seq`), patch its schedule sequence. -/
def processComputation (infer : List Shape → Except String Shape)
    (cfg : AsyncCollectiveCreator) (c : Computation)
    (sched : Option (List Nat)) :
    Except (FatalReason × Computation)
      (Computation × Option (List Nat) × Bool) :=
  let supported :=
    (c.instructions.filter cfg.matchCollective).map (fun i => i.id)
  if supported.isEmpty then .ok (c, none, false)
  else
    match processCandidates infer cfg sched.isSome c supported [] false with
    | .error e => .error e
    | .ok (c', pairs, changed) =>
      .ok (c', (sched.map (fun seq => patchSchedule pairs seq)), changed)

/-- Modelled from the spec: eligibility of a computation, i.e. membership in
`HloModule::MakeNonfusionComputations(execution_threads)` (not part of this
source file) — non-fusion computations whose execution thread is in the
given set, every thread being eligible when the set is empty. -/
def Computation.isEligible (c : Computation) (threads : List String) : Bool :=
  !c.isFusionComputation && (threads.isEmpty || threads.contains c.executionThread)

/-- Update the schedule entry of one computation (`HloSchedule::set_sequence`). -/
def setSequence (s : List (Nat × List Nat)) (cid : Nat) (ns : List Nat) :
    List (Nat × List Nat) :=
  s.map (fun e => if e.1 = cid then (cid, ns) else e)

/-- The sequence of a computation in the module schedule, when the module
has a schedule and the computation is scheduled (`has_schedule` together
with `is_computation_scheduled` and `sequence`). -/
def schedFor (sched : Option (List (Nat × List Nat))) (cid : Nat) :
    Option (List Nat) :=
  match sched with
  | none => none
  | some s => List.lookup cid s

/-- Write a patched sequence back into the module schedule, when the pass
produced one. -/
def updateSched (sched : Option (List (Nat × List Nat))) (cid : Nat)
    (newSeq : Option (List Nat)) : Option (List (Nat × List Nat)) :=
  match newSeq with
  | some ns => sched.map (fun s => setSequence s cid ns)
  | none => sched

/-- The loop of `Run` over the module's computations, carrying the schedule,
the already-processed computations and the `changed` flag. -/
def runLoop (infer : List Shape → Except String Shape)
    (cfg : AsyncCollectiveCreator) (threads : List String)
    (sched : Option (List (Nat × List Nat))) (acc : List Computation)
    (todo : List Computation) (changed : Bool) : RunResult :=
  match todo with
  | [] => .ok ⟨acc, sched⟩ changed
  | c :: rest =>
    if c.isEligible threads then
      match processComputation infer cfg c (schedFor sched c.id) with
      | .error (r, cc) => .fatal r ⟨acc ++ cc :: rest, sched⟩
      | .ok (c', newSeq, ch) =>
        runLoop infer cfg threads (updateSched sched c.id newSeq)
          (acc ++ [c']) rest (changed || ch)
    else
      runLoop infer cfg threads sched (acc ++ [c]) rest changed

/-- Models `AsyncCollectiveCreator::Run`, parameterized by the external
shape-inference collaborator `infer` and the execution-thread set. -/
def AsyncCollectiveCreator.Run (cfg : AsyncCollectiveCreator)
    (infer : List Shape → Except String Shape) (threads : List String)
    (m : HloModule) : RunResult :=
  runLoop infer cfg threads m.schedule [] m.computations false

/-! ## Specification-side vocabulary -/

/-- Well-formedness of a computation: instruction ids are distinct and below
the fresh-id counter. -/
def Computation.WF (c : Computation) : Prop :=
  (c.instructions.map (fun i => i.id)).Nodup ∧
  ∀ i ∈ c.instructions, i.id < c.nextId

/-- The upstream invariant on CollectivePermute instructions: every such
instruction has either the one-operand or the four-operand form. -/
def Computation.CPOperandCountOk (c : Computation) : Prop :=
  ∀ i ∈ c.instructions, i.opcode = .collectivePermute →
    i.operands.length = 1 ∨ i.operands.length = 4

/-- Number of instructions with the given opcode. -/
def Computation.opCount (c : Computation) (op : HloOpcode) : Nat :=
  c.instructions.countP (fun i => i.opcode == op)

/-- Number of custom calls with the given target. -/
def Computation.ccCount (c : Computation) (t : String) : Nat :=
  c.instructions.countP
    (fun i => i.opcode == .customCall && i.customCallTarget == t)

/-- Number of instructions whose opcode and custom-call target satisfy `q`. -/
def sigCount (c : Computation) (q : HloOpcode → String → Bool) : Nat :=
  c.instructions.countP (fun i => q i.opcode i.customCallTarget)

/-- Whether a run outcome is a returned (recoverable) pass failure. -/
def RunResult.isErr : RunResult → Bool
  | .err _ => true
  | _ => false

/-- Whether a crash reason is the `CHECK_EQ` on the collective-permute
operand count. -/
def FatalReason.isCheckEq : FatalReason → Bool
  | .checkEqOperandCount _ => true
  | _ => false

/-- The four synchronous collective opcodes the pass rewrites. -/
def HloOpcode.isSyncCollective : HloOpcode → Bool
  | .allReduce => true
  | .allGather => true
  | .collectivePermute => true
  | .allToAll => true
  | _ => false

/-- Instructions the per-kind rewriter creates for one candidate of a given
opcode, as counted by `q`: one start and one done of the matching async
kind, except that a collective-permute under split tracking (`tk = true`)
gets the recv-done/send-done custom-call pair instead of a plain done. -/
def createdCount (tk : Bool) (q : HloOpcode → String → Bool) :
    HloOpcode → Nat
  | .allReduce =>
    (if q .allReduceStart "" then 1 else 0) +
    (if q .allReduceDone "" then 1 else 0)
  | .allGather =>
    (if q .allGatherStart "" then 1 else 0) +
    (if q .allGatherDone "" then 1 else 0)
  | .collectivePermute =>
    (if q .collectivePermuteStart "" then 1 else 0) +
    (if tk then
      (if q .customCall "$cp_recv_done" then 1 else 0) +
      (if q .customCall "$cp_send_done" then 1 else 0)
     else (if q .collectivePermuteDone "" then 1 else 0))
  | .allToAll =>
    (if q .asyncStart "" then 1 else 0) +
    (if q .asyncDone "" then 1 else 0)
  | _ => 0

/-- The claim-level replacement relation between a computation before and
after the pass, at split-tracking mode `tk`: counting instructions by any
signature `q` of opcode and custom-call target, every synchronous collective
of the original has been traded for exactly the instructions its rewrite
branch creates (one start plus one done, or the recv-done/send-done pair),
and in particular no synchronous collective opcode remains afterwards. -/
def Computation.AsyncReplaced (tk : Bool) (c c' : Computation) : Prop :=
  (∀ q : HloOpcode → String → Bool,
    sigCount c' q + sigCount c (fun op s => op.isSyncCollective && q op s) =
      sigCount c q +
        ((c.instructions.filter (fun i => i.opcode.isSyncCollective)).map
          (fun a => createdCount tk q a.opcode)).sum) ∧
  sigCount c' (fun op _ => op.isSyncCollective) = 0

/-! ## Concrete fixtures used by the witnesses -/

/-- A configuration whose four predicates accept everything and whose
collective-permute completion uses a single done instruction. -/
def cfgAll : AsyncCollectiveCreator :=
  ⟨fun _ => true, fun _ => true, fun _ => true, fun _ => true, fun _ => false⟩

/-- A configuration whose four predicates accept everything and which
tracks collective-permute send/recv completion separately. -/
def cfgTrack : AsyncCollectiveCreator :=
  ⟨fun _ => true, fun _ => true, fun _ => true, fun _ => true, fun _ => true⟩

/-- A shape-inference collaborator that always succeeds. -/
def inferOk : List Shape → Except String Shape := fun _ => .ok (Shape.base 99)

/-- A shape-inference collaborator that always reports inconsistent operand
shapes. -/
def inferFail : List Shape → Except String Shape :=
  fun _ => .error "inconsistent"

/-- A computation with one AllReduce between two unrelated instructions. -/
def compAR : Computation :=
  { id := 0,
    instructions :=
      [ { id := 0, opcode := .other 0, shape := Shape.base 1 },
        { id := 1, opcode := .allReduce, shape := Shape.base 1,
          operands := [0], metadata := 7, backendConfig := 8,
          collectiveData := 9 },
        { id := 2, opcode := .other 1, shape := Shape.base 1,
          operands := [1] } ],
    rootId := 2, nextId := 3 }

/-- A scheduled module holding `compAR`. -/
def modAR : HloModule :=
  { computations := [compAR], schedule := some [(0, [0, 1, 2])] }

/-- The module a successful run of the pass produces from `modAR`: the
AllReduce has become a start/done pair, its user was rewired to the done,
and its schedule slot was split into the start,done pair. -/
def modARafter : HloModule :=
  { computations :=
      [ { id := 0,
          instructions :=
            [ { id := 0, opcode := .other 0, shape := Shape.base 1 },
              { id := 2, opcode := .other 1, shape := Shape.base 1,
                operands := [4] },
              { id := 3, opcode := .allReduceStart, shape := Shape.base 1,
                operands := [0], metadata := 7, backendConfig := 8,
                collectiveData := 9 },
              { id := 4, opcode := .allReduceDone, shape := Shape.base 1,
                operands := [3] } ],
          rootId := 2, nextId := 5 } ],
    schedule := some [(0, [0, 3, 4, 2])] }

/-- A computation with a four-operand CollectivePermute. -/
def compCP4 : Computation :=
  { id := 0,
    instructions :=
      [ { id := 0, opcode := .other 0, shape := Shape.base 1 },
        { id := 1, opcode := .other 0, shape := Shape.base 2 },
        { id := 2, opcode := .other 0, shape := Shape.base 3 },
        { id := 3, opcode := .other 0, shape := Shape.base 4 },
        { id := 4, opcode := .collectivePermute, shape := Shape.base 5,
          operands := [0, 1, 2, 3] } ],
    rootId := 4, nextId := 5 }

/-- An unscheduled module holding `compCP4`. -/
def modCP4 : HloModule := { computations := [compCP4] }

/-- A computation with a single-operand CollectivePermute that carries the
disjoint-read-write-regions attribute. -/
def compCP1 : Computation :=
  { id := 0,
    instructions :=
      [ { id := 0, opcode := .other 0, shape := Shape.base 1 },
        { id := 1, opcode := .collectivePermute, shape := Shape.base 2,
          operands := [0], metadata := 5, backendConfig := 6,
          hasDisjointReadWriteRegions := true },
        { id := 2, opcode := .other 1, shape := Shape.base 1,
          operands := [1] } ],
    rootId := 2, nextId := 3 }

/-- A computation with a two-operand CollectivePermute (an upstream
invariant violation). -/
def compCP2 : Computation :=
  { id := 0,
    instructions :=
      [ { id := 0, opcode := .other 0, shape := Shape.base 1 },
        { id := 1, opcode := .other 0, shape := Shape.base 2 },
        { id := 2, opcode := .collectivePermute, shape := Shape.base 3,
          operands := [0, 1] } ],
    rootId := 2, nextId := 3 }

/-- A computation containing no collective at all. -/
def compNone : Computation :=
  { id := 0,
    instructions :=
      [ { id := 0, opcode := .other 0, shape := Shape.base 1 },
        { id := 1, opcode := .other 1, shape := Shape.base 1,
          operands := [0] } ],
    rootId := 1, nextId := 2 }

/-! ## General lemmas about the graph primitives -/

theorem mem_find?_of_nodup {l : List Instruction}
    (hnd : (l.map (fun i => i.id)).Nodup) {a : Instruction} (ha : a ∈ l) :
    l.find? (fun i => i.id == a.id) = some a := by
  induction l with
  | nil => cases ha
  | cons b rest ih =>
    simp only [List.map_cons, List.nodup_cons, List.mem_map] at hnd
    rcases List.mem_cons.mp ha with rfl | hmem
    · simp [List.find?_cons]
    · have hne : b.id ≠ a.id := by
        intro heq
        exact hnd.1 ⟨a, hmem, heq.symm⟩
      rw [List.find?_cons_of_neg _ (by simp [hne])]
      exact ih hnd.2 hmem

theorem Computation.find?_mem_of_wf {c : Computation} (hwf : c.WF)
    {a : Instruction} (ha : a ∈ c.instructions) :
    c.find? a.id = some a :=
  mem_find?_of_nodup hwf.1 ha

/-! ## Lemmas about the Schedule Patcher -/

theorem patchSchedule_length (pairs : List (Nat × ReplacedAsync))
    (seq : List Nat) :
    (patchSchedule pairs seq).length =
      seq.length + seq.countP (fun id => (List.lookup id pairs).isSome) := by
  induction seq with
  | nil => rfl
  | cons id rest ih =>
    simp only [patchSchedule, List.flatMap_cons, List.countP_cons] at *
    cases h : List.lookup id pairs <;>
      simp [h, List.length_append, ih] <;> omega

theorem patchSchedule_sublist (pairs : List (Nat × ReplacedAsync))
    (seq : List Nat) :
    List.Sublist (seq.filter (fun id => (List.lookup id pairs).isNone))
      (patchSchedule pairs seq) := by
  induction seq with
  | nil => simp [patchSchedule]
  | cons id rest ih =>
    simp only [patchSchedule, List.flatMap_cons]
    cases h : List.lookup id pairs with
    | none =>
      simp only [List.filter_cons, h, Option.isNone_none]
      exact List.Sublist.cons₂ id ih
    | some p =>
      simp only [List.filter_cons, h, Option.isNone_some]
      exact List.Sublist.cons _ (List.Sublist.cons _ ih)

theorem lookup_isSome_mem (pairs : List (Nat × ReplacedAsync)) (a : Nat) :
    (List.lookup a pairs).isSome = true ↔ a ∈ pairs.map Prod.fst := by
  induction pairs with
  | nil => simp [List.lookup]
  | cons p rest ih =>
    obtain ⟨k, v⟩ := p
    by_cases h : a = k
    · simp [List.lookup_cons, h]
    · have hbeq : (a == k) = false := by simp [h]
      simp only [List.lookup_cons, hbeq, List.map_cons]
      simp [ih, h]

theorem countP_or_disjoint {l : List Nat} {p q : Nat → Bool}
    (h : ∀ a ∈ l, ¬(p a = true ∧ q a = true)) :
    l.countP (fun a => p a || q a) = l.countP p + l.countP q := by
  induction l with
  | nil => simp
  | cons a rest ih =>
    simp only [List.countP_cons]
    have hrest := ih (fun b hb => h b (List.mem_cons_of_mem a hb))
    have ha := h a (List.mem_cons_self a rest)
    cases hp : p a <;> cases hq : q a <;> simp [hp, hq] at ha ⊢ <;> omega

theorem countP_lookup_isSome (pairs : List (Nat × ReplacedAsync))
    (seq : List Nat)
    (hk : ∀ pr ∈ pairs, seq.count pr.1 = 1)
    (hnd : (pairs.map Prod.fst).Nodup) :
    seq.countP (fun id => (List.lookup id pairs).isSome) = pairs.length := by
  induction pairs with
  | nil => simp [List.lookup]
  | cons p rest ih =>
    obtain ⟨k, v⟩ := p
    simp only [List.map_cons, List.nodup_cons] at hnd
    have hsplit : seq.countP (fun id => (List.lookup id ((k, v) :: rest)).isSome)
        = seq.countP (fun id => id == k) +
          seq.countP (fun id => (List.lookup id rest).isSome) := by
      rw [List.countP_congr (q := fun id =>
        (id == k) || (List.lookup id rest).isSome)]
      · exact countP_or_disjoint (fun a _ hand => by
          have : a = k := by simpa using hand.1
          subst this
          exact hnd.1 ((lookup_isSome_mem rest a).mp hand.2))
      · intro x _
        by_cases hx : x = k
        · simp [List.lookup_cons, hx]
        · have hbeq : (x == k) = false := by simp [hx]
          simp [List.lookup_cons, hbeq]
    have hcount : seq.countP (fun id => id == k) = 1 := by
      have := hk (k, v) (List.mem_cons_self _ _)
      simpa [List.count] using this
    rw [hsplit, hcount, ih (fun pr hpr => hk pr (List.mem_cons_of_mem _ hpr))
      hnd.2]
    simp [Nat.add_comm]

theorem patchSchedule_slot (pairs : List (Nat × ReplacedAsync))
    (pre suf : List Nat) (o s d : Nat)
    (hlk : List.lookup o pairs = some ⟨s, d⟩) :
    patchSchedule pairs (pre ++ o :: suf) =
      patchSchedule pairs pre ++ s :: d :: patchSchedule pairs suf := by
  simp [patchSchedule, List.flatMap_append, List.flatMap_cons, hlk]

/-! ## Claim theorems: schedule consistency, empty-computation frame -/

/-- C3: when every replaced instruction occurs exactly once in the pre-pass
sequence of length `N` and `k` instructions were replaced, the patched
sequence has length `N + k`, the unreplaced instructions keep their relative
order (they form a sublist of the patched sequence), and each replacement's
start appears immediately before its done in the slot of the replaced
original. -/
theorem c3_schedule_consistency (pairs : List (Nat × ReplacedAsync))
    (seq : List Nat)
    (hk : ∀ pr ∈ pairs, seq.count pr.1 = 1)
    (hnd : (pairs.map Prod.fst).Nodup) :
    (patchSchedule pairs seq).length = seq.length + pairs.length ∧
    List.Sublist (seq.filter (fun id => (List.lookup id pairs).isNone))
      (patchSchedule pairs seq) ∧
    ∀ pre o suf s d, seq = pre ++ o :: suf →
      List.lookup o pairs = some ⟨s, d⟩ →
      patchSchedule pairs seq =
        patchSchedule pairs pre ++ s :: d :: patchSchedule pairs suf := by
  refine ⟨?_, patchSchedule_sublist pairs seq, ?_⟩
  · rw [patchSchedule_length, countP_lookup_isSome pairs seq hk hnd]
  · intro pre o suf s d hseq hlk
    rw [hseq]
    exact patchSchedule_slot pairs pre suf o s d hlk

theorem c3_schedule_consistency_witness :
    (patchSchedule [(1, ⟨5, 6⟩)] [0, 1, 2]).length = 3 + 1 ∧
    List.Sublist
      ([0, 1, 2].filter (fun id => (List.lookup id [(1, (⟨5, 6⟩ : ReplacedAsync))]).isNone))
      (patchSchedule [(1, ⟨5, 6⟩)] [0, 1, 2]) ∧
    ∀ pre o suf s d, [0, 1, 2] = pre ++ o :: suf →
      List.lookup o [(1, (⟨5, 6⟩ : ReplacedAsync))] = some ⟨s, d⟩ →
      patchSchedule [(1, ⟨5, 6⟩)] [0, 1, 2] =
        patchSchedule [(1, ⟨5, 6⟩)] pre ++
          s :: d :: patchSchedule [(1, ⟨5, 6⟩)] suf :=
  c3_schedule_consistency [(1, ⟨5, 6⟩)] [0, 1, 2] (by decide) (by decide)

/-- C4 counterexample: replacing one instruction in a schedule of length 2
yields a patched schedule of length 3, not 2 + 2·1 = 4 as the claim
states. -/
theorem c4_counterexample :
    (patchSchedule [(0, ⟨10, 11⟩)] [0, 1]).length ≠ 2 + 2 * 1 := by decide

/-- C4 (amended): the patched sequence has length equal to the original
length plus the number of slots holding a replaced instruction (one extra
entry per replacement, not two), and the untouched instructions keep their
relative order. -/
theorem c4_schedule_length (pairs : List (Nat × ReplacedAsync))
    (seq : List Nat) :
    (patchSchedule pairs seq).length =
      seq.length + seq.countP (fun id => (List.lookup id pairs).isSome) ∧
    List.Sublist (seq.filter (fun id => (List.lookup id pairs).isNone))
      (patchSchedule pairs seq) :=
  ⟨patchSchedule_length pairs seq, patchSchedule_sublist pairs seq⟩

/-- C7: a computation in which no instruction is both of a supported
collective kind and accepted by its predicate is left completely untouched,
with `changed = false`, and the result does not depend on the schedule
argument at all (the schedule is never inspected). -/
theorem c7_no_candidates_untouched
    (infer : List Shape → Except String Shape)
    (cfg : AsyncCollectiveCreator) (c : Computation)
    (h : c.instructions.filter cfg.matchCollective = []) :
    ∀ sched, processComputation infer cfg c sched = .ok (c, none, false) := by
  intro sched
  simp [processComputation, h]

theorem c7_no_candidates_untouched_witness :
    processComputation inferOk cfgAll compNone (some [0, 1]) =
      .ok (compNone, none, false) :=
  c7_no_candidates_untouched inferOk cfgAll compNone rfl (some [0, 1])

/-! ## Claim theorems: the four-operand collective-permute failure path -/

/-- C2 counterexample: on a computation with one four-operand
CollectivePermute whose operand shapes make shape inference fail, the pass
does not return a structured failure — the `StatusOr::value()` call crashes
the process (the module is indeed unmutated at the crash). -/
theorem c2_counterexample :
    (cfgAll.Run inferFail [] modCP4).isErr = false ∧
    cfgAll.Run inferFail [] modCP4 =
      .fatal (.statusOrValue "inconsistent") modCP4 := by
  constructor <;> rfl

/-- C2 (amended): for a computation whose only candidate is a four-operand
CollectivePermute on whose operand shapes shape inference fails, the pass
aborts fatally at the `StatusOr::value()` call (it does not return a
recoverable failure), and the crash happens before any graph edit: the
module at the abort point is unchanged. -/
theorem c2_shape_inference_crash
    (cfg : AsyncCollectiveCreator) (infer : List Shape → Except String Shape)
    (threads : List String) (c : Computation) (cp : Instruction)
    (sched : Option (List (Nat × List Nat))) (e : String)
    (hwf : c.WF)
    (helig : c.isEligible threads = true)
    (hcand : c.instructions.filter cfg.matchCollective = [cp])
    (hop : cp.opcode = .collectivePermute)
    (hlen : cp.operands.length = 4)
    (hinf : infer (cp.operands.map c.operandShape) = .error e) :
    cfg.Run infer threads ⟨[c], sched⟩ =
      .fatal (.statusOrValue e) ⟨[c], sched⟩ := by
  have hmem : cp ∈ c.instructions :=
    List.mem_of_mem_filter (by rw [hcand]; exact List.mem_singleton_self cp)
  have hfind : c.find? cp.id = some cp := Computation.find?_mem_of_wf hwf hmem
  have hr : rewriteCollectivePermute infer cfg.trackSendRecvSeparately c cp =
      .error (.statusOrValue e) := by
    unfold rewriteCollectivePermute
    split
    · rename_i heq
      rw [heq] at hlen
      simp at hlen
    · rename_i operand rest heq
      simp [hlen, hinf]
  simp [AsyncCollectiveCreator.Run, runLoop, helig, processComputation,
    hcand, processCandidates, rewriteCandidate, rewriteInstruction, hfind,
    hop, hr]

theorem c2_shape_inference_crash_witness :
    cfgAll.Run inferFail [] ⟨[compCP4], none⟩ =
      .fatal (.statusOrValue "inconsistent") ⟨[compCP4], none⟩ :=
  c2_shape_inference_crash cfgAll inferFail [] compCP4
    { id := 4, opcode := .collectivePermute, shape := Shape.base 5,
      operands := [0, 1, 2, 3] }
    none "inconsistent" ⟨by decide, by decide⟩ rfl rfl rfl rfl rfl

/-! ## Tracking instruction lookup through the graph primitives -/

theorem find?_filter_of_imp (l : List Instruction) (p q : Instruction → Bool)
    (h : ∀ a, p a = true → q a = true) :
    (l.filter q).find? p = l.find? p := by
  induction l with
  | nil => rfl
  | cons a rest ih =>
    cases hq : q a with
    | true =>
      rw [List.filter_cons_of_pos hq]
      cases hp : p a with
      | true => rw [List.find?_cons_of_pos _ hp, List.find?_cons_of_pos _ hp]
      | false => rw [List.find?_cons_of_neg _ (by simp [hp]),
          List.find?_cons_of_neg _ (by simp [hp]), ih]
    | false =>
      have hp : p a = false := by
        cases hpa : p a with
        | true => rw [h a hpa] at hq; cases hq
        | false => rfl
      rw [List.filter_cons_of_neg (by simp [hq]),
        List.find?_cons_of_neg _ (by simp [hp]), ih]

theorem find?_map_id (l : List Instruction) (g : Instruction → Instruction)
    (hg : ∀ x, (g x).id = x.id) (id : Nat) :
    (l.map g).find? (fun i => i.id == id) =
      (l.find? (fun i => i.id == id)).map g := by
  induction l with
  | nil => rfl
  | cons a rest ih =>
    by_cases hp : a.id = id
    · simp [List.map_cons, List.find?_cons, hg, hp]
    · simp [List.map_cons, List.find?_cons, hg, hp, ih]

theorem find?_addInstruction_self (c : Computation) (i : Instruction)
    (id : Nat) (hid : id = c.nextId)
    (hnext : ∀ j ∈ c.instructions, j.id < c.nextId) :
    (c.addInstruction i).1.find? id = some { i with id := c.nextId } := by
  subst hid
  simp only [Computation.addInstruction, Computation.find?]
  rw [List.find?_append]
  have h1 : c.instructions.find? (fun j => j.id == c.nextId) = none := by
    rw [List.find?_eq_none]
    intro j hj
    simp [Nat.ne_of_lt (hnext j hj)]
  rw [h1]
  simp [List.find?]

theorem find?_addInstruction_ne (c : Computation) (i : Instruction)
    (id : Nat) (hid : id ≠ c.nextId) :
    (c.addInstruction i).1.find? id = c.find? id := by
  simp only [Computation.addInstruction, Computation.find?]
  rw [List.find?_append]
  have hne : (c.nextId == id) = false := by
    simp [Ne.symm hid]
  have h1 : List.find? (fun j => j.id == id) [{ i with id := c.nextId }]
      = none := by
    simp [List.find?, hne]
  rw [h1]
  cases c.instructions.find? (fun j => j.id == id) <;> rfl

theorem find?_modify_self (c : Computation) (id : Nat)
    (f : Instruction → Instruction) (hf : ∀ x, (f x).id = x.id) :
    (c.modifyInstruction id f).find? id = (c.find? id).map f := by
  simp only [Computation.modifyInstruction, Computation.find?]
  rw [find?_map_id _ _ (fun x => by by_cases h : x.id = id <;> simp [h, hf])]
  cases hr : c.instructions.find? (fun i => i.id == id) with
  | none => rfl
  | some a =>
    have ha : a.id = id := by simpa using List.find?_some hr
    simp [ha]

theorem find?_modify_ne (c : Computation) (id id2 : Nat)
    (f : Instruction → Instruction) (hf : ∀ x, (f x).id = x.id)
    (hne : id ≠ id2) :
    (c.modifyInstruction id2 f).find? id = c.find? id := by
  simp only [Computation.modifyInstruction, Computation.find?]
  rw [find?_map_id _ _ (fun x => by by_cases h : x.id = id2 <;> simp [h, hf])]
  cases hr : c.instructions.find? (fun i => i.id == id) with
  | none => rfl
  | some a =>
    have ha : a.id = id := by simpa using List.find?_some hr
    simp [ha, hne]

theorem find?_replace_ne (c : Computation) (oldId newId id : Nat)
    (hid : id ≠ oldId) :
    (c.replaceInstruction oldId newId).find? id =
      (c.find? id).map (remapOperands oldId newId) := by
  simp only [Computation.replaceInstruction, Computation.find?]
  rw [find?_map_id _ (remapOperands oldId newId) (fun x => rfl)]
  rw [find?_filter_of_imp _ _ _ (fun a ha => by
    have : a.id = id := by simpa using ha
    simp [this, hid])]

theorem find?_replace_self (c : Computation) (oldId newId : Nat) :
    (c.replaceInstruction oldId newId).find? oldId = none := by
  simp only [Computation.replaceInstruction, Computation.find?]
  rw [List.find?_eq_none]
  intro j hj
  rw [List.mem_map] at hj
  obtain ⟨b, hb, rfl⟩ := hj
  rw [List.mem_filter] at hb
  simpa using hb.2

/-! ## Preservation of id bounds and well-formedness -/

theorem bound_addInstruction (c : Computation) (i : Instruction)
    (hb : ∀ j ∈ c.instructions, j.id < c.nextId) :
    ∀ j ∈ (c.addInstruction i).1.instructions,
      j.id < (c.addInstruction i).1.nextId := by
  intro j hj
  simp only [Computation.addInstruction, List.mem_append,
    List.mem_singleton] at hj ⊢
  rcases hj with hj | rfl
  · exact Nat.lt_succ_of_lt (hb j hj)
  · exact Nat.lt_succ_self _

theorem bound_modifyInstruction (c : Computation) (id : Nat)
    (f : Instruction → Instruction) (hf : ∀ x, (f x).id = x.id)
    (hb : ∀ j ∈ c.instructions, j.id < c.nextId) :
    ∀ j ∈ (c.modifyInstruction id f).instructions,
      j.id < (c.modifyInstruction id f).nextId := by
  intro j hj
  simp only [Computation.modifyInstruction, List.mem_map] at hj ⊢
  obtain ⟨b, hbmem, rfl⟩ := hj
  have hb2 := hb b hbmem
  by_cases h : b.id = id <;> simp [h, hf] <;> omega

theorem bound_replaceInstruction (c : Computation) (oldId newId : Nat)
    (hb : ∀ j ∈ c.instructions, j.id < c.nextId) :
    ∀ j ∈ (c.replaceInstruction oldId newId).instructions,
      j.id < (c.replaceInstruction oldId newId).nextId := by
  intro j hj
  simp only [Computation.replaceInstruction, List.mem_map,
    List.mem_filter] at hj ⊢
  obtain ⟨b, hbmem, rfl⟩ := hj
  exact hb b hbmem.1

theorem WF_addInstruction (c : Computation) (i : Instruction) (hwf : c.WF) :
    (c.addInstruction i).1.WF := by
  refine ⟨?_, bound_addInstruction c i hwf.2⟩
  simp only [Computation.addInstruction, List.map_append, List.map_cons,
    List.map_nil]
  rw [List.nodup_append]
  refine ⟨hwf.1, List.nodup_singleton _, ?_⟩
  intro x hx
  simp only [List.mem_map] at hx
  obtain ⟨b, hb, rfl⟩ := hx
  simp only [List.map_cons, List.map_nil, List.mem_singleton]
  exact Nat.ne_of_lt (hwf.2 b hb)

theorem WF_modifyInstruction (c : Computation) (id : Nat)
    (f : Instruction → Instruction) (hf : ∀ x, (f x).id = x.id)
    (hwf : c.WF) : (c.modifyInstruction id f).WF := by
  refine ⟨?_, bound_modifyInstruction c id f hf hwf.2⟩
  have : (c.modifyInstruction id f).instructions.map (fun i => i.id) =
      c.instructions.map (fun i => i.id) := by
    simp only [Computation.modifyInstruction, List.map_map]
    refine List.map_congr_left ?_
    intro b hb
    by_cases h : b.id = id <;> simp [h, hf]
  rw [this]
  exact hwf.1

theorem WF_replaceInstruction (c : Computation) (oldId newId : Nat)
    (hwf : c.WF) : (c.replaceInstruction oldId newId).WF := by
  refine ⟨?_, bound_replaceInstruction c oldId newId hwf.2⟩
  have : (c.replaceInstruction oldId newId).instructions.map (fun i => i.id) =
      (c.instructions.filter (fun i => i.id ≠ oldId)).map (fun i => i.id) := by
    simp only [Computation.replaceInstruction, List.map_map]
    refine List.map_congr_left ?_
    intro b hb
    rfl
  rw [this]
  exact List.Nodup.sublist (List.Sublist.map _ (List.filter_sublist _)) hwf.1

/-! ## Lookup of the start instruction after each branch -/

theorem setMetadataAndBackendConfig_id (src : Instruction) :
    ∀ x, (setMetadataAndBackendConfig src x).id = x.id := fun x => rfl

theorem setDisjointAttr_id : ∀ x, (setDisjointAttr x).id = x.id :=
  fun x => rfl

theorem addControlPredecessor_id (p : Nat) :
    ∀ x, (addControlPredecessor p x).id = x.id := fun x => rfl

theorem setSideEffect_id : ∀ x, (setSideEffect x).id = x.id := fun x => rfl

theorem cpFinish_find_start (track : Instruction → Bool) (c1 : Computation)
    (startId : Nat) (cp : Instruction) (s0 : Instruction)
    (hfind : c1.find? startId = some s0)
    (hlt : startId < c1.nextId)
    (hne : startId ≠ cp.id) :
    (cpFinish track c1 startId cp).2.start = startId ∧
    ∃ s, (cpFinish track c1 startId cp).1.find? startId = some s ∧
      s.opcode = s0.opcode ∧ s.metadata = cp.metadata ∧
      s.backendConfig = cp.backendConfig ∧
      s.hasDisjointReadWriteRegions = s0.hasDisjointReadWriteRegions := by
  cases htr : track cp with
  | false =>
    have heq : cpFinish track c1 startId cp =
        (((c1.modifyInstruction startId
            (setMetadataAndBackendConfig cp)).addInstruction
            { opcode := .collectivePermuteDone, shape := cp.shape,
              operands := [startId] }).1.replaceInstruction cp.id c1.nextId,
         ⟨startId, c1.nextId⟩) := by
      unfold cpFinish
      rw [htr]
      rfl
    rw [heq]
    refine ⟨rfl, ?_⟩
    rw [find?_replace_ne _ _ _ _ hne]
    rw [find?_addInstruction_ne _ _ _
      (by simp only [Computation.modifyInstruction]; omega)]
    rw [find?_modify_self _ _ _ (setMetadataAndBackendConfig_id cp)]
    rw [hfind]
    exact ⟨_, rfl, rfl, rfl, rfl, rfl⟩
  | true =>
    have heq : cpFinish track c1 startId cp =
        (((((((c1.modifyInstruction startId
            (setMetadataAndBackendConfig cp)).addInstruction
            { opcode := .customCall, shape := cp.shape, operands := [startId],
              customCallTarget := "$cp_recv_done" }).1.addInstruction
            { opcode := .customCall, shape := .token, operands := [startId],
              customCallTarget := "$cp_send_done" }).1.modifyInstruction
            (c1.nextId + 1) (addControlPredecessor c1.nextId)).modifyInstruction
            (c1.nextId + 1) setSideEffect).modifyInstruction
            c1.nextId setSideEffect).replaceInstruction
          cp.id c1.nextId,
         ⟨startId, c1.nextId⟩) := by
      unfold cpFinish
      rw [htr]
      rfl
    rw [heq]
    refine ⟨rfl, ?_⟩
    rw [find?_replace_ne _ _ _ _ hne]
    rw [find?_modify_ne _ _ _ _ setSideEffect_id (Nat.ne_of_lt hlt)]
    rw [find?_modify_ne _ _ _ _ setSideEffect_id (by omega)]
    rw [find?_modify_ne _ _ _ _ (addControlPredecessor_id c1.nextId) (by omega)]
    rw [find?_addInstruction_ne _ _ _
      (by simp only [Computation.addInstruction, Computation.modifyInstruction]
          omega)]
    rw [find?_addInstruction_ne _ _ _
      (by simp only [Computation.modifyInstruction]; omega)]
    rw [find?_modify_self _ _ _ (setMetadataAndBackendConfig_id cp)]
    rw [hfind]
    exact ⟨_, rfl, rfl, rfl, rfl, rfl⟩

theorem rewriteCollectivePermute_cases
    (infer : List Shape → Except String Shape) (track : Instruction → Bool)
    (c : Computation) (cp : Instruction) (res : Computation × ReplacedAsync)
    (hok : rewriteCollectivePermute infer track c cp = .ok res) :
    (∃ operand, cp.operands = [operand] ∧
      res = cpFinish track (c.addInstruction
        { opcode := .collectivePermuteStart,
          shape := Shape.tuple
            [c.operandShape operand, cp.shape, .u32scalar, .u32scalar],
          operands := [operand],
          collectiveData := cp.collectiveData }).1 c.nextId cp) ∨
    (∃ sh, cp.operands.length = 4 ∧
      infer (cp.operands.map c.operandShape) = .ok sh ∧
      ((cp.hasDisjointReadWriteRegions = false ∧
        res = cpFinish track (c.addInstruction
          { opcode := .collectivePermuteStart, shape := sh,
            operands := cp.operands,
            collectiveData := cp.collectiveData }).1 c.nextId cp) ∨
       (cp.hasDisjointReadWriteRegions = true ∧
        res = cpFinish track ((c.addInstruction
          { opcode := .collectivePermuteStart, shape := sh,
            operands := cp.operands,
            collectiveData := cp.collectiveData }).1.modifyInstruction
            c.nextId setDisjointAttr) c.nextId cp))) := by
  unfold rewriteCollectivePermute at hok
  split at hok
  · cases hok
  · rename_i operand rest heq
    by_cases hl1 : cp.operands.length = 1
    · left
      have hrest : rest = [] := by
        rw [heq] at hl1
        simpa using hl1
      subst hrest
      refine ⟨operand, heq, ?_⟩
      simp only [hl1, if_true] at hok
      exact (Except.ok.injEq _ _).mp hok.symm |>.symm ▸ by
        cases hok
        rfl
    · right
      by_cases hl4 : cp.operands.length = 4
      · simp only [hl1, hl4, if_false, dif_pos, if_true] at hok
        cases hinf : infer (cp.operands.map c.operandShape) with
        | error e => rw [hinf] at hok; cases hok
        | ok sh =>
          rw [hinf] at hok
          refine ⟨sh, hl4, rfl, ?_⟩
          cases hdj : cp.hasDisjointReadWriteRegions with
          | false =>
            left
            rw [hdj] at hok
            simp only [if_false] at hok
            cases hok
            exact ⟨rfl, rfl⟩
          | true =>
            right
            rw [hdj] at hok
            simp only [if_true] at hok
            cases hok
            exact ⟨rfl, rfl⟩
      · simp only [hl1, hl4, if_false, dif_neg] at hok
        cases hok

theorem rewriteCollectivePermute_checkEq
    (infer : List Shape → Except String Shape) (track : Instruction → Bool)
    (c : Computation) (cp : Instruction)
    (hne : cp.operands ≠ [])
    (hl1 : cp.operands.length ≠ 1)
    (hl4 : cp.operands.length ≠ 4) :
    rewriteCollectivePermute infer track c cp =
      .error (.checkEqOperandCount cp.operands.length) := by
  unfold rewriteCollectivePermute
  split
  · rename_i heq; exact absurd heq hne
  · simp [hl1, hl4]

theorem rewriteCollectivePermute_error_cases
    (infer : List Shape → Except String Shape) (track : Instruction → Bool)
    (c : Computation) (cp : Instruction) (r : FatalReason)
    (herr : rewriteCollectivePermute infer track c cp = .error r) :
    (cp.operands = [] ∧ r = .operandOutOfRange) ∨
    (cp.operands.length ≠ 1 ∧ cp.operands.length ≠ 4 ∧
      r = .checkEqOperandCount cp.operands.length) ∨
    (cp.operands.length = 4 ∧
      ∃ e, infer (cp.operands.map c.operandShape) = .error e ∧
        r = .statusOrValue e) := by
  unfold rewriteCollectivePermute at herr
  split at herr
  · rename_i heq
    cases herr
    exact Or.inl ⟨heq, rfl⟩
  · rename_i operand rest heq
    by_cases hl1 : cp.operands.length = 1
    · simp only [hl1, if_true] at herr
      cases herr
    · by_cases hl4 : cp.operands.length = 4
      · simp only [hl1, hl4, if_false, dif_pos, if_true] at herr
        cases hinf : infer (cp.operands.map c.operandShape) with
        | error e =>
          rw [hinf] at herr
          cases herr
          exact Or.inr (Or.inr ⟨hl4, e, rfl, rfl⟩)
        | ok sh =>
          rw [hinf] at herr
          cases hdj : cp.hasDisjointReadWriteRegions <;>
            rw [hdj] at herr <;> simp at herr
      · simp only [hl1, hl4, if_false, dif_neg] at herr
        cases herr
        exact Or.inr (Or.inl ⟨hl1, hl4, rfl⟩)

theorem rewriteAllReduce_find_start (c : Computation) (ar : Instruction)
    (hb : ∀ j ∈ c.instructions, j.id < c.nextId)
    (hlt : ar.id < c.nextId) :
    (rewriteAllReduce c ar).2.start = c.nextId ∧
    ∃ s, (rewriteAllReduce c ar).1.find? c.nextId = some s ∧
      s.opcode = .allReduceStart ∧ s.metadata = ar.metadata ∧
      s.backendConfig = ar.backendConfig := by
  have heq : rewriteAllReduce c ar =
      ((((c.addInstruction
          { opcode := .allReduceStart, shape := ar.shape,
            operands := ar.operands,
            collectiveData := ar.collectiveData }).1.modifyInstruction
          c.nextId (setMetadataAndBackendConfig ar)).addInstruction
          { opcode := .allReduceDone, shape := ar.shape,
            operands := [c.nextId] }).1.replaceInstruction
        ar.id (c.nextId + 1),
       ⟨c.nextId, c.nextId + 1⟩) := rfl
  rw [heq]
  refine ⟨rfl, ?_⟩
  rw [find?_replace_ne _ _ _ _ (Nat.ne_of_gt hlt)]
  rw [find?_addInstruction_ne _ _ _
    (by simp only [Computation.addInstruction, Computation.modifyInstruction]
        omega)]
  rw [find?_modify_self _ _ _ (setMetadataAndBackendConfig_id ar)]
  rw [find?_addInstruction_self _ _ _ rfl hb]
  exact ⟨_, rfl, rfl, rfl, rfl⟩

theorem rewriteAllGather_find_start (c : Computation) (ag : Instruction)
    (hb : ∀ j ∈ c.instructions, j.id < c.nextId)
    (hlt : ag.id < c.nextId) :
    (rewriteAllGather c ag).2.start = c.nextId ∧
    ∃ s, (rewriteAllGather c ag).1.find? c.nextId = some s ∧
      s.opcode = .allGatherStart ∧ s.metadata = ag.metadata ∧
      s.backendConfig = ag.backendConfig := by
  have heq : rewriteAllGather c ag =
      ((((c.addInstruction
          { opcode := .allGatherStart,
            shape := Shape.tuple
              [if ag.operands.length > 1 then
                 Shape.tuple (ag.operands.map c.operandShape)
               else (ag.operands.map c.operandShape).headD Shape.token,
               ag.shape],
            operands := ag.operands,
            collectiveData := ag.collectiveData }).1.modifyInstruction
          c.nextId (setMetadataAndBackendConfig ag)).addInstruction
          { opcode := .allGatherDone, shape := ag.shape,
            operands := [c.nextId] }).1.replaceInstruction
        ag.id (c.nextId + 1),
       ⟨c.nextId, c.nextId + 1⟩) := rfl
  rw [heq]
  refine ⟨rfl, ?_⟩
  rw [find?_replace_ne _ _ _ _ (Nat.ne_of_gt hlt)]
  rw [find?_addInstruction_ne _ _ _
    (by simp only [Computation.addInstruction, Computation.modifyInstruction]
        omega)]
  rw [find?_modify_self _ _ _ (setMetadataAndBackendConfig_id ag)]
  rw [find?_addInstruction_self _ _ _ rfl hb]
  exact ⟨_, rfl, rfl, rfl, rfl⟩

theorem rewriteAllToAll_find_start (c : Computation) (ata : Instruction)
    (hb : ∀ j ∈ c.instructions, j.id < c.nextId)
    (hlt : ata.id < c.nextId) :
    (rewriteAllToAll c ata).2.start = c.nextId ∧
    ∃ s, (rewriteAllToAll c ata).1.find? c.nextId = some s ∧
      s.opcode = .asyncStart ∧ s.metadata = ata.metadata ∧
      s.backendConfig = ata.backendConfig := by
  have heq : rewriteAllToAll c ata =
      ((((c.addInstruction
          { opcode := .asyncStart,
            shape := Shape.tuple
              ([Shape.tuple (ata.operands.map c.operandShape), ata.shape] ++
                [Shape.u32scalar, Shape.u32scalar]),
            operands := ata.operands,
            metadata := ata.metadata,
            backendConfig := ata.backendConfig,
            collectiveData := ata.collectiveData }).1).addInstruction
          { opcode := .asyncDone, shape := ata.shape,
            operands := [c.nextId], metadata := ata.metadata,
            backendConfig := ata.backendConfig }).1.replaceInstruction
        ata.id (c.nextId + 1),
       ⟨c.nextId, c.nextId + 1⟩) := rfl
  rw [heq]
  refine ⟨rfl, ?_⟩
  rw [find?_replace_ne _ _ _ _ (Nat.ne_of_gt hlt)]
  rw [find?_addInstruction_ne _ _ _
    (by simp only [Computation.addInstruction]; omega)]
  rw [find?_addInstruction_self _ _ _ rfl hb]
  exact ⟨_, rfl, rfl, rfl, rfl⟩

theorem rewriteCollectivePermute_find_start
    (infer : List Shape → Except String Shape) (track : Instruction → Bool)
    (c : Computation) (cp : Instruction) (c2 : Computation)
    (pr : ReplacedAsync)
    (hb : ∀ j ∈ c.instructions, j.id < c.nextId)
    (hlt : cp.id < c.nextId)
    (hok : rewriteCollectivePermute infer track c cp = .ok (c2, pr)) :
    pr.start = c.nextId ∧
    ∃ s, c2.find? c.nextId = some s ∧
      s.opcode = .collectivePermuteStart ∧ s.metadata = cp.metadata ∧
      s.backendConfig = cp.backendConfig ∧
      (cp.operands.length = 1 → s.hasDisjointReadWriteRegions = false) := by
  rcases rewriteCollectivePermute_cases infer track c cp (c2, pr) hok with
    ⟨operand, hops, hres⟩ | ⟨sh, hl4, hinf, hcase⟩
  · have hc2 : c2 = (cpFinish track (c.addInstruction
        { opcode := .collectivePermuteStart,
          shape := Shape.tuple
            [c.operandShape operand, cp.shape, .u32scalar, .u32scalar],
          operands := [operand],
          collectiveData := cp.collectiveData }).1 c.nextId cp).1 :=
      congrArg Prod.fst hres
    have hpr : pr = (cpFinish track (c.addInstruction
        { opcode := .collectivePermuteStart,
          shape := Shape.tuple
            [c.operandShape operand, cp.shape, .u32scalar, .u32scalar],
          operands := [operand],
          collectiveData := cp.collectiveData }).1 c.nextId cp).2 :=
      congrArg Prod.snd hres
    obtain ⟨hstart, s, hf, ho, hm, hbc, hdj⟩ :=
      cpFinish_find_start track _ c.nextId cp _
        (find?_addInstruction_self c _ c.nextId rfl hb)
        (by simp only [Computation.addInstruction]; omega)
        (Nat.ne_of_gt hlt)
    refine ⟨by rw [hpr]; exact hstart, s, by rw [hc2]; exact hf, ho, hm, hbc,
      fun _ => by rw [hdj]⟩
  · rcases hcase with ⟨hdjf, hres⟩ | ⟨hdjt, hres⟩
    · have hc2 : c2 = (cpFinish track (c.addInstruction
          { opcode := .collectivePermuteStart, shape := sh,
            operands := cp.operands,
            collectiveData := cp.collectiveData }).1 c.nextId cp).1 :=
        congrArg Prod.fst hres
      have hpr : pr = (cpFinish track (c.addInstruction
          { opcode := .collectivePermuteStart, shape := sh,
            operands := cp.operands,
            collectiveData := cp.collectiveData }).1 c.nextId cp).2 :=
        congrArg Prod.snd hres
      obtain ⟨hstart, s, hf, ho, hm, hbc, hdj⟩ :=
        cpFinish_find_start track _ c.nextId cp _
          (find?_addInstruction_self c _ c.nextId rfl hb)
          (by simp only [Computation.addInstruction]; omega)
          (Nat.ne_of_gt hlt)
      refine ⟨by rw [hpr]; exact hstart, s, by rw [hc2]; exact hf, ho, hm, hbc,
        fun h1 => by rw [hl4] at h1; cases h1⟩
    · have hc2 : c2 = (cpFinish track ((c.addInstruction
          { opcode := .collectivePermuteStart, shape := sh,
            operands := cp.operands,
            collectiveData := cp.collectiveData }).1.modifyInstruction
          c.nextId setDisjointAttr) c.nextId cp).1 :=
        congrArg Prod.fst hres
      have hpr : pr = (cpFinish track ((c.addInstruction
          { opcode := .collectivePermuteStart, shape := sh,
            operands := cp.operands,
            collectiveData := cp.collectiveData }).1.modifyInstruction
          c.nextId setDisjointAttr) c.nextId cp).2 :=
        congrArg Prod.snd hres
      obtain ⟨hstart, s, hf, ho, hm, hbc, hdj⟩ :=
        cpFinish_find_start track _ c.nextId cp
          (setDisjointAttr
            { ({ opcode := .collectivePermuteStart, shape := sh,
                 operands := cp.operands,
                 collectiveData := cp.collectiveData } : Instruction) with
              id := c.nextId })
          (by
            rw [find?_modify_self _ _ _ setDisjointAttr_id,
              find?_addInstruction_self c _ c.nextId rfl hb]
            rfl)
          (by simp only [Computation.addInstruction,
                Computation.modifyInstruction]
              omega)
          (Nat.ne_of_gt hlt)
      refine ⟨by rw [hpr]; exact hstart, s, by rw [hc2]; exact hf, ho, hm, hbc,
        fun h1 => by rw [hl4] at h1; cases h1⟩

theorem Computation.mem_of_find? {c : Computation} {id : Nat}
    {a : Instruction} (h : c.find? id = some a) :
    a ∈ c.instructions ∧ a.id = id := by
  unfold Computation.find? at h
  exact ⟨List.mem_of_find?_eq_some h, by simpa using List.find?_some h⟩

theorem cpFinish_track_spec (track : Instruction → Bool) (c1 : Computation)
    (startId : Nat) (cp : Instruction)
    (hb1 : ∀ j ∈ c1.instructions, j.id < c1.nextId)
    (hlt : startId < c1.nextId)
    (hcp : cp.id < c1.nextId)
    (hnestart : startId ≠ cp.id)
    (htr : track cp = true) :
    (cpFinish track c1 startId cp).2 = ⟨startId, c1.nextId⟩ ∧
    (∃ recv, (cpFinish track c1 startId cp).1.find? c1.nextId = some recv ∧
      recv.opcode = .customCall ∧ recv.customCallTarget = "$cp_recv_done" ∧
      recv.shape = cp.shape ∧ recv.operands = [startId] ∧
      recv.customCallHasSideEffect = true) ∧
    (∃ send, (cpFinish track c1 startId cp).1.find? (c1.nextId + 1) =
        some send ∧
      send.opcode = .customCall ∧ send.customCallTarget = "$cp_send_done" ∧
      send.shape = .token ∧ send.operands = [startId] ∧
      send.customCallHasSideEffect = true ∧
      send.controlPredecessors = [c1.nextId]) ∧
    (∀ j b, j ≠ cp.id → j ≠ startId → c1.find? j = some b →
      (cpFinish track c1 startId cp).1.find? j =
        some (remapOperands cp.id c1.nextId b)) ∧
    (cpFinish track c1 startId cp).1.find? cp.id = none := by
  have heq : cpFinish track c1 startId cp =
      (((((((c1.modifyInstruction startId
          (setMetadataAndBackendConfig cp)).addInstruction
          { opcode := .customCall, shape := cp.shape, operands := [startId],
            customCallTarget := "$cp_recv_done" }).1.addInstruction
          { opcode := .customCall, shape := .token, operands := [startId],
            customCallTarget := "$cp_send_done" }).1.modifyInstruction
          (c1.nextId + 1) (addControlPredecessor c1.nextId)).modifyInstruction
          (c1.nextId + 1) setSideEffect).modifyInstruction
          c1.nextId setSideEffect).replaceInstruction
        cp.id c1.nextId,
       ⟨startId, c1.nextId⟩) := by
    unfold cpFinish
    rw [htr]
    rfl
  rw [heq]
  refine ⟨rfl, ?_, ?_, ?_, ?_⟩
  · rw [find?_replace_ne _ _ _ _ (Nat.ne_of_gt hcp)]
    rw [find?_modify_self _ _ _ setSideEffect_id]
    rw [find?_modify_ne _ _ _ _ setSideEffect_id (by omega)]
    rw [find?_modify_ne _ _ _ _ (addControlPredecessor_id c1.nextId)
      (by omega)]
    rw [find?_addInstruction_ne _ _ _
      (by simp only [Computation.addInstruction, Computation.modifyInstruction]
          omega)]
    rw [find?_addInstruction_self _ _ _
      (by simp only [Computation.modifyInstruction])
      (bound_modifyInstruction _ _ _ (setMetadataAndBackendConfig_id cp) hb1)]
    refine ⟨_, rfl, rfl, rfl, rfl, ?_, rfl⟩
    simp [remapOperands, setSideEffect, hnestart]
  · rw [find?_replace_ne _ _ _ _ (by omega)]
    rw [find?_modify_ne _ _ _ _ setSideEffect_id (by omega)]
    rw [find?_modify_self _ _ _ setSideEffect_id]
    rw [find?_modify_self _ _ _ (addControlPredecessor_id c1.nextId)]
    rw [find?_addInstruction_self _ _ _
      (by simp only [Computation.addInstruction, Computation.modifyInstruction])
      (bound_addInstruction _ _
        (bound_modifyInstruction _ _ _ (setMetadataAndBackendConfig_id cp)
          hb1))]
    refine ⟨_, rfl, rfl, rfl, rfl, ?_, rfl, rfl⟩
    simp [remapOperands, setSideEffect, addControlPredecessor, hnestart]
  · intro j b hjcp hjstart hjb
    have hjlt : j < c1.nextId := by
      obtain ⟨hm, hid⟩ := Computation.mem_of_find? hjb
      exact hid ▸ hb1 _ hm
    rw [find?_replace_ne _ _ _ _ hjcp]
    rw [find?_modify_ne _ _ _ _ setSideEffect_id (by omega)]
    rw [find?_modify_ne _ _ _ _ setSideEffect_id (by omega)]
    rw [find?_modify_ne _ _ _ _ (addControlPredecessor_id c1.nextId)
      (by omega)]
    rw [find?_addInstruction_ne _ _ _
      (by simp only [Computation.addInstruction, Computation.modifyInstruction]
          omega)]
    rw [find?_addInstruction_ne _ _ _
      (by simp only [Computation.modifyInstruction]; omega)]
    rw [find?_modify_ne _ _ _ _ (setMetadataAndBackendConfig_id cp) hjstart]
    rw [hjb]
    rfl
  · exact find?_replace_self _ cp.id c1.nextId

theorem rewriteCandidate_eq_of_find?
    (infer : List Shape → Except String Shape)
    (cfg : AsyncCollectiveCreator) (c : Computation) (id : Nat)
    (instr : Instruction) (hfind : c.find? id = some instr) :
    rewriteCandidate infer cfg c id = rewriteInstruction infer cfg c instr := by
  unfold rewriteCandidate
  rw [hfind]

theorem rewriteInstruction_allReduce
    (infer : List Shape → Except String Shape)
    (cfg : AsyncCollectiveCreator) (c : Computation) (instr : Instruction)
    (hco : instr.opcode = .allReduce) :
    rewriteInstruction infer cfg c instr =
      .ok ((rewriteAllReduce c instr).1,
        some (rewriteAllReduce c instr).2, true) := by
  unfold rewriteInstruction
  rw [hco]

theorem rewriteInstruction_allGather
    (infer : List Shape → Except String Shape)
    (cfg : AsyncCollectiveCreator) (c : Computation) (instr : Instruction)
    (hco : instr.opcode = .allGather) :
    rewriteInstruction infer cfg c instr =
      .ok ((rewriteAllGather c instr).1,
        some (rewriteAllGather c instr).2, true) := by
  unfold rewriteInstruction
  rw [hco]

theorem rewriteInstruction_collectivePermute
    (infer : List Shape → Except String Shape)
    (cfg : AsyncCollectiveCreator) (c : Computation) (instr : Instruction)
    (hco : instr.opcode = .collectivePermute) :
    rewriteInstruction infer cfg c instr =
      match rewriteCollectivePermute infer cfg.trackSendRecvSeparately
          c instr with
      | .error r => .error (r, c)
      | .ok p => .ok (p.1, some p.2, true) := by
  unfold rewriteInstruction
  rw [hco]

theorem rewriteInstruction_allToAll
    (infer : List Shape → Except String Shape)
    (cfg : AsyncCollectiveCreator) (c : Computation) (instr : Instruction)
    (hco : instr.opcode = .allToAll) :
    rewriteInstruction infer cfg c instr =
      .ok ((rewriteAllToAll c instr).1,
        some (rewriteAllToAll c instr).2, true) := by
  unfold rewriteInstruction
  rw [hco]

theorem rewriteInstruction_not_sync
    (infer : List Shape → Except String Shape)
    (cfg : AsyncCollectiveCreator) (c : Computation) (instr : Instruction)
    (hco : instr.opcode.isSyncCollective = false) :
    rewriteInstruction infer cfg c instr = .ok (c, none, false) := by
  unfold rewriteInstruction
  cases h : instr.opcode <;> (try rfl) <;>
    (rw [h] at hco; simp [HloOpcode.isSyncCollective] at hco)

theorem cpFinish_c6_payload (track : Instruction → Bool) (c : Computation)
    (cp : Instruction) (c1 : Computation)
    (hb : ∀ j ∈ c.instructions, j.id < c.nextId)
    (hn1 : c1.nextId = c.nextId + 1)
    (hb1 : ∀ j ∈ c1.instructions, j.id < c1.nextId)
    (hpres : ∀ j b, j ≠ c.nextId → c.find? j = some b → c1.find? j = some b)
    (hlt : cp.id < c.nextId)
    (htr : track cp = true) :
    (cpFinish track c1 c.nextId cp).2 = ⟨c.nextId, c.nextId + 1⟩ ∧
    (∃ recv, (cpFinish track c1 c.nextId cp).1.find? (c.nextId + 1) =
        some recv ∧
      recv.opcode = .customCall ∧ recv.customCallTarget = "$cp_recv_done" ∧
      recv.shape = cp.shape ∧ recv.operands = [c.nextId] ∧
      recv.customCallHasSideEffect = true) ∧
    (∃ send, (cpFinish track c1 c.nextId cp).1.find? (c.nextId + 2) =
        some send ∧
      send.opcode = .customCall ∧ send.customCallTarget = "$cp_send_done" ∧
      send.shape = .token ∧ send.operands = [c.nextId] ∧
      send.customCallHasSideEffect = true ∧
      send.controlPredecessors = [c.nextId + 1]) ∧
    (∀ j b, j ≠ cp.id → c.find? j = some b →
      (cpFinish track c1 c.nextId cp).1.find? j =
        some (remapOperands cp.id (c.nextId + 1) b)) ∧
    (cpFinish track c1 c.nextId cp).1.find? cp.id = none := by
  obtain ⟨hpr, hrecv, hsend, husers, hnone⟩ :=
    cpFinish_track_spec track c1 c.nextId cp hb1 (by omega) (by omega)
      (Nat.ne_of_gt hlt) htr
  rw [hn1] at hpr hrecv hsend husers
  refine ⟨hpr, hrecv, ?_, ?_, hnone⟩
  · obtain ⟨send, hf, h1, h2, h3, h4, h5, h6⟩ := hsend
    exact ⟨send, by
      have : c.nextId + 1 + 1 = c.nextId + 2 := rfl
      rw [← this]
      exact hf, h1, h2, h3, h4, h5, h6⟩
  · intro j b hjcp hjb
    have hjne : j ≠ c.nextId := by
      obtain ⟨hm, hid⟩ := Computation.mem_of_find? hjb
      have := hid ▸ hb _ hm
      omega
    exact husers j b hjcp hjne (hpres j b hjne hjb)

/-! ## Claim theorems: per-branch attribute handling -/

/-- C5: whenever one of the four rewrite branches replaces a candidate, the
newly created start instruction carries the original instruction's metadata
and backend configuration. -/
theorem c5_metadata_backend_config_copied
    (infer : List Shape → Except String Shape)
    (cfg : AsyncCollectiveCreator) (c : Computation) (id : Nat)
    (instr : Instruction) (c' : Computation) (pr : ReplacedAsync) (ch : Bool)
    (hwf : c.WF)
    (hfind : c.find? id = some instr)
    (hok : rewriteCandidate infer cfg c id = .ok (c', some pr, ch)) :
    ∃ s, c'.find? pr.start = some s ∧
      (s.opcode = .allReduceStart ∨ s.opcode = .allGatherStart ∨
       s.opcode = .collectivePermuteStart ∨ s.opcode = .asyncStart) ∧
      s.metadata = instr.metadata ∧ s.backendConfig = instr.backendConfig := by
  obtain ⟨hmem, hid⟩ := Computation.mem_of_find? hfind
  have hlt : instr.id < c.nextId := hwf.2 _ hmem
  rw [rewriteCandidate_eq_of_find? infer cfg c id instr hfind] at hok
  cases hco : instr.opcode
  case allReduce =>
    rw [rewriteInstruction_allReduce infer cfg c instr hco] at hok
    simp only [Except.ok.injEq, Prod.mk.injEq, Option.some.injEq] at hok
    obtain ⟨hc', hpr, hch⟩ := hok
    obtain ⟨hstart, s, hf, ho, hm, hbc⟩ :=
      rewriteAllReduce_find_start c instr hwf.2 hlt
    exact ⟨s, by rw [← hc', ← hpr, hstart]; exact hf, Or.inl ho, hm, hbc⟩
  case allGather =>
    rw [rewriteInstruction_allGather infer cfg c instr hco] at hok
    simp only [Except.ok.injEq, Prod.mk.injEq, Option.some.injEq] at hok
    obtain ⟨hc', hpr, hch⟩ := hok
    obtain ⟨hstart, s, hf, ho, hm, hbc⟩ :=
      rewriteAllGather_find_start c instr hwf.2 hlt
    exact ⟨s, by rw [← hc', ← hpr, hstart]; exact hf, Or.inr (Or.inl ho), hm,
      hbc⟩
  case collectivePermute =>
    rw [rewriteInstruction_collectivePermute infer cfg c instr hco] at hok
    cases hcp : rewriteCollectivePermute infer cfg.trackSendRecvSeparately
        c instr with
    | error r => rw [hcp] at hok; simp at hok
    | ok p =>
      rw [hcp] at hok
      simp only [Except.ok.injEq, Prod.mk.injEq, Option.some.injEq] at hok
      obtain ⟨hc', hpr, hch⟩ := hok
      obtain ⟨hstart, s, hf, ho, hm, hbc, hdj⟩ :=
        rewriteCollectivePermute_find_start infer
          cfg.trackSendRecvSeparately c instr p.1 p.2 hwf.2 hlt hcp
      exact ⟨s, by rw [← hc', ← hpr, hstart]; exact hf,
        Or.inr (Or.inr (Or.inl ho)), hm, hbc⟩
  case allToAll =>
    rw [rewriteInstruction_allToAll infer cfg c instr hco] at hok
    simp only [Except.ok.injEq, Prod.mk.injEq, Option.some.injEq] at hok
    obtain ⟨hc', hpr, hch⟩ := hok
    obtain ⟨hstart, s, hf, ho, hm, hbc⟩ :=
      rewriteAllToAll_find_start c instr hwf.2 hlt
    exact ⟨s, by rw [← hc', ← hpr, hstart]; exact hf,
      Or.inr (Or.inr (Or.inr ho)), hm, hbc⟩
  all_goals
    rw [rewriteInstruction_not_sync infer cfg c instr
      (by rw [hco]; rfl)] at hok
    simp at hok

theorem c5_metadata_backend_config_copied_witness :
    ∃ s, Computation.find?
        (rewriteAllReduce compAR
          { id := 1, opcode := .allReduce, shape := Shape.base 1,
            operands := [0], metadata := 7, backendConfig := 8,
            collectiveData := 9 }).1
        (rewriteAllReduce compAR
          { id := 1, opcode := .allReduce, shape := Shape.base 1,
            operands := [0], metadata := 7, backendConfig := 8,
            collectiveData := 9 }).2.start = some s ∧
      (s.opcode = .allReduceStart ∨ s.opcode = .allGatherStart ∨
       s.opcode = .collectivePermuteStart ∨ s.opcode = .asyncStart) ∧
      s.metadata = 7 ∧ s.backendConfig = 8 :=
  c5_metadata_backend_config_copied inferOk cfgAll compAR 1
    { id := 1, opcode := .allReduce, shape := Shape.base 1,
      operands := [0], metadata := 7, backendConfig := 8,
      collectiveData := 9 }
    _ _ true ⟨by decide, by decide⟩ rfl rfl

/-- C10: the single-operand CollectivePermute variant never propagates the
disjoint-read-write-regions attribute onto the new start instruction, even
when the original instruction carries it. -/
theorem c10_single_operand_no_disjoint_attr
    (infer : List Shape → Except String Shape) (track : Instruction → Bool)
    (c : Computation) (cp : Instruction) (c' : Computation)
    (pr : ReplacedAsync)
    (hb : ∀ j ∈ c.instructions, j.id < c.nextId)
    (hlt : cp.id < c.nextId)
    (h1 : cp.operands.length = 1)
    (hok : rewriteCollectivePermute infer track c cp = .ok (c', pr)) :
    ∃ s, c'.find? pr.start = some s ∧
      s.opcode = .collectivePermuteStart ∧
      s.hasDisjointReadWriteRegions = false := by
  obtain ⟨hstart, s, hf, ho, hm, hbc, hdj⟩ :=
    rewriteCollectivePermute_find_start infer track c cp c' pr hb hlt hok
  exact ⟨s, by rw [hstart]; exact hf, ho, hdj h1⟩

theorem c10_single_operand_no_disjoint_attr_witness :
    ∃ s, Computation.find?
        (rewriteCollectivePermute inferOk (fun _ => false) compCP1
          { id := 1, opcode := .collectivePermute, shape := Shape.base 2,
            operands := [0], metadata := 5, backendConfig := 6,
            hasDisjointReadWriteRegions := true }).toOption.get!.1
        (rewriteCollectivePermute inferOk (fun _ => false) compCP1
          { id := 1, opcode := .collectivePermute, shape := Shape.base 2,
            operands := [0], metadata := 5, backendConfig := 6,
            hasDisjointReadWriteRegions := true }).toOption.get!.2.start =
      some s ∧
      s.opcode = .collectivePermuteStart ∧
      s.hasDisjointReadWriteRegions = false :=
  c10_single_operand_no_disjoint_attr inferOk (fun _ => false) compCP1
    { id := 1, opcode := .collectivePermute, shape := Shape.base 2,
      operands := [0], metadata := 5, backendConfig := 6,
      hasDisjointReadWriteRegions := true }
    _ _ (by decide) (by decide) rfl rfl

/-- C6: when split tracking is selected for a CollectivePermute candidate,
the rewriter creates a side-effecting recv-done custom call with the
original result shape and a side-effecting send-done custom call with the
token shape, both reading from the new start instruction, with a control
edge forcing send-done after recv-done; the externally visible done handle
is recv-done, every prior user of the original is rewired to it, and the
original instruction is removed. -/
theorem c6_split_tracking (infer : List Shape → Except String Shape)
    (track : Instruction → Bool) (c : Computation) (cp : Instruction)
    (c' : Computation) (pr : ReplacedAsync)
    (hb : ∀ j ∈ c.instructions, j.id < c.nextId)
    (hlt : cp.id < c.nextId)
    (htr : track cp = true)
    (hok : rewriteCollectivePermute infer track c cp = .ok (c', pr)) :
    pr = ⟨c.nextId, c.nextId + 1⟩ ∧
    (∃ recv, c'.find? (c.nextId + 1) = some recv ∧
      recv.opcode = .customCall ∧ recv.customCallTarget = "$cp_recv_done" ∧
      recv.shape = cp.shape ∧ recv.operands = [c.nextId] ∧
      recv.customCallHasSideEffect = true) ∧
    (∃ send, c'.find? (c.nextId + 2) = some send ∧
      send.opcode = .customCall ∧ send.customCallTarget = "$cp_send_done" ∧
      send.shape = .token ∧ send.operands = [c.nextId] ∧
      send.customCallHasSideEffect = true ∧
      send.controlPredecessors = [c.nextId + 1]) ∧
    (∀ j b, j ≠ cp.id → c.find? j = some b →
      c'.find? j = some (remapOperands cp.id (c.nextId + 1) b)) ∧
    c'.find? cp.id = none := by
  rcases rewriteCollectivePermute_cases infer track c cp (c', pr) hok with
    ⟨operand, hops, hres⟩ | ⟨sh, hl4, hinf, hcase⟩
  · have hc' := congrArg Prod.fst hres
    have hpr := congrArg Prod.snd hres
    simp only at hc' hpr
    rw [hc', hpr]
    exact cpFinish_c6_payload track c cp _ hb
      (by simp only [Computation.addInstruction])
      (bound_addInstruction _ _ hb)
      (fun j b hjne hjb => by
        rw [find?_addInstruction_ne _ _ _ hjne]
        exact hjb)
      hlt htr
  · rcases hcase with ⟨hdjf, hres⟩ | ⟨hdjt, hres⟩ <;>
      [skip;
       skip] <;>
    · have hc' := congrArg Prod.fst hres
      have hpr := congrArg Prod.snd hres
      simp only at hc' hpr
      rw [hc', hpr]
      first
      | exact cpFinish_c6_payload track c cp _ hb
          (by simp only [Computation.addInstruction])
          (bound_addInstruction _ _ hb)
          (fun j b hjne hjb => by
            rw [find?_addInstruction_ne _ _ _ hjne]
            exact hjb)
          hlt htr
      | exact cpFinish_c6_payload track c cp _ hb
          (by simp only [Computation.addInstruction,
                Computation.modifyInstruction])
          (bound_modifyInstruction _ _ _ setDisjointAttr_id
            (bound_addInstruction _ _ hb))
          (fun j b hjne hjb => by
            rw [find?_modify_ne _ _ _ _ setDisjointAttr_id hjne,
              find?_addInstruction_ne _ _ _ hjne]
            exact hjb)
          hlt htr

/-! ## Counting instructions through the rewrite -/

theorem sum_map_ite_eq_countP (l : List Instruction)
    (w : Instruction → Bool) :
    (l.map (fun a => if w a then 1 else 0)).sum = l.countP w := by
  induction l with
  | nil => rfl
  | cons a rest ih =>
    simp only [List.map_cons, List.sum_cons, List.countP_cons, ih]
    cases hw : w a <;> simp [hw] <;> omega

theorem sum_map_congr_countP (l : List Instruction) (f : Instruction → Nat)
    (w : Instruction → Bool)
    (h : ∀ a ∈ l, f a = if w a then 1 else 0) :
    (l.map f).sum = l.countP w := by
  induction l with
  | nil => rfl
  | cons a rest ih =>
    simp only [List.map_cons, List.sum_cons, List.countP_cons]
    rw [h a (List.mem_cons_self _ _),
      ih (fun b hb => h b (List.mem_cons_of_mem _ hb))]
    cases hw : w a <;> simp [hw] <;> omega

theorem sum_map_zero (l : List Instruction) (f : Instruction → Nat)
    (h : ∀ a ∈ l, f a = 0) : (l.map f).sum = 0 := by
  induction l with
  | nil => rfl
  | cons a rest ih =>
    simp only [List.map_cons, List.sum_cons]
    rw [h a (List.mem_cons_self _ _),
      ih (fun b hb => h b (List.mem_cons_of_mem _ hb))]

theorem countP_erase_id {l : List Instruction}
    (hnd : (l.map (fun i => i.id)).Nodup)
    {a : Instruction} (ha : a ∈ l) (p : Instruction → Bool) :
    (l.filter (fun i => i.id ≠ a.id)).countP p +
      (if p a then 1 else 0) = l.countP p := by
  induction l with
  | nil => cases ha
  | cons b rest ih =>
    simp only [List.map_cons, List.nodup_cons, List.mem_map] at hnd
    rcases List.mem_cons.mp ha with rfl | hmem
    · have hrest : rest.filter (fun i => i.id ≠ a.id) = rest := by
        rw [List.filter_eq_self]
        intro x hx
        simp only [decide_eq_true_eq]
        intro hcon
        exact hnd.1 ⟨x, hx, hcon⟩
      rw [List.filter_cons_of_neg (by simp), hrest, List.countP_cons]
    · have hbne : b.id ≠ a.id := fun hcon => hnd.1 ⟨a, hmem, hcon.symm⟩
      rw [List.filter_cons_of_pos (by simp [hbne]), List.countP_cons,
        List.countP_cons]
      have := ih hnd.2 hmem
      omega

theorem sigCount_add (c : Computation) (i : Instruction)
    (q : HloOpcode → String → Bool) :
    sigCount (c.addInstruction i).1 q =
      sigCount c q + (if q i.opcode i.customCallTarget then 1 else 0) := by
  simp only [sigCount, Computation.addInstruction, List.countP_append]
  congr 1
  simp [List.countP_cons]

theorem sigCount_modify (c : Computation) (id : Nat)
    (f : Instruction → Instruction)
    (hf : ∀ x, (f x).opcode = x.opcode ∧
      (f x).customCallTarget = x.customCallTarget)
    (q : HloOpcode → String → Bool) :
    sigCount (c.modifyInstruction id f) q = sigCount c q := by
  simp only [sigCount, Computation.modifyInstruction, List.countP_map]
  refine List.countP_congr ?_
  intro x hx
  simp only [Function.comp_apply]
  by_cases h : x.id = id <;> simp [h, (hf x).1, (hf x).2]

theorem sigCount_replace (c : Computation) {a : Instruction}
    (newId : Nat)
    (hnd : (c.instructions.map (fun i => i.id)).Nodup)
    (ha : a ∈ c.instructions)
    (q : HloOpcode → String → Bool) :
    sigCount (c.replaceInstruction a.id newId) q +
      (if q a.opcode a.customCallTarget then 1 else 0) = sigCount c q := by
  simp only [sigCount, Computation.replaceInstruction, List.countP_map]
  have hcomp : (List.countP
      ((fun i => q i.opcode i.customCallTarget) ∘ remapOperands a.id newId)
      (c.instructions.filter (fun i => i.id ≠ a.id))) =
      (c.instructions.filter (fun i => i.id ≠ a.id)).countP
        (fun i => q i.opcode i.customCallTarget) := by
    refine List.countP_congr ?_
    intro x hx
    simp [Function.comp_apply, remapOperands]
  rw [hcomp]
  exact countP_erase_id hnd ha _

theorem mem_addInstruction (c : Computation) (i : Instruction)
    {a : Instruction} (ha : a ∈ c.instructions) :
    a ∈ (c.addInstruction i).1.instructions := by
  simp only [Computation.addInstruction, List.mem_append]
  exact Or.inl ha

theorem mem_modifyInstruction_of_ne (c : Computation) (id : Nat)
    (f : Instruction → Instruction) {a : Instruction}
    (ha : a ∈ c.instructions) (hne : a.id ≠ id) :
    a ∈ (c.modifyInstruction id f).instructions := by
  simp only [Computation.modifyInstruction, List.mem_map]
  exact ⟨a, ha, by simp [hne]⟩

theorem WF_rewriteAllReduce (c : Computation) (ar : Instruction)
    (hwf : c.WF) : (rewriteAllReduce c ar).1.WF :=
  WF_replaceInstruction _ _ _ (WF_addInstruction _ _
    (WF_modifyInstruction _ _ _ (setMetadataAndBackendConfig_id ar)
      (WF_addInstruction _ _ hwf)))

theorem WF_rewriteAllGather (c : Computation) (ag : Instruction)
    (hwf : c.WF) : (rewriteAllGather c ag).1.WF :=
  WF_replaceInstruction _ _ _ (WF_addInstruction _ _
    (WF_modifyInstruction _ _ _ (setMetadataAndBackendConfig_id ag)
      (WF_addInstruction _ _ hwf)))

theorem WF_rewriteAllToAll (c : Computation) (ata : Instruction)
    (hwf : c.WF) : (rewriteAllToAll c ata).1.WF :=
  WF_replaceInstruction _ _ _ (WF_addInstruction _ _
    (WF_addInstruction _ _ hwf))

theorem rewriteAllReduce_nextId (c : Computation) (ar : Instruction) :
    (rewriteAllReduce c ar).1.nextId = c.nextId + 2 := rfl

theorem rewriteAllGather_nextId (c : Computation) (ag : Instruction) :
    (rewriteAllGather c ag).1.nextId = c.nextId + 2 := rfl

theorem rewriteAllToAll_nextId (c : Computation) (ata : Instruction) :
    (rewriteAllToAll c ata).1.nextId = c.nextId + 2 := rfl

theorem rewriteAllReduce_find_other (c : Computation) (ar : Instruction)
    (hb : ∀ j ∈ c.instructions, j.id < c.nextId)
    {j : Nat} {b : Instruction} (hne : j ≠ ar.id)
    (hjb : c.find? j = some b) :
    (rewriteAllReduce c ar).1.find? j =
      some (remapOperands ar.id (c.nextId + 1) b) := by
  have hjlt : j < c.nextId := by
    obtain ⟨hm, hid⟩ := Computation.mem_of_find? hjb
    exact hid ▸ hb _ hm
  have heq : (rewriteAllReduce c ar).1 =
      (((c.addInstruction
          { opcode := .allReduceStart, shape := ar.shape,
            operands := ar.operands,
            collectiveData := ar.collectiveData }).1.modifyInstruction
          c.nextId (setMetadataAndBackendConfig ar)).addInstruction
          { opcode := .allReduceDone, shape := ar.shape,
            operands := [c.nextId] }).1.replaceInstruction
        ar.id (c.nextId + 1) := rfl
  rw [heq]
  rw [find?_replace_ne _ _ _ _ hne]
  rw [find?_addInstruction_ne _ _ _
    (by simp only [Computation.addInstruction, Computation.modifyInstruction]
        omega)]
  rw [find?_modify_ne _ _ _ _ (setMetadataAndBackendConfig_id ar) (by omega)]
  rw [find?_addInstruction_ne _ _ _ (by omega)]
  rw [hjb]
  rfl

theorem rewriteAllGather_find_other (c : Computation) (ag : Instruction)
    (hb : ∀ j ∈ c.instructions, j.id < c.nextId)
    {j : Nat} {b : Instruction} (hne : j ≠ ag.id)
    (hjb : c.find? j = some b) :
    (rewriteAllGather c ag).1.find? j =
      some (remapOperands ag.id (c.nextId + 1) b) := by
  have hjlt : j < c.nextId := by
    obtain ⟨hm, hid⟩ := Computation.mem_of_find? hjb
    exact hid ▸ hb _ hm
  have heq : (rewriteAllGather c ag).1 =
      (((c.addInstruction
          { opcode := .allGatherStart,
            shape := Shape.tuple
              [if ag.operands.length > 1 then
                 Shape.tuple (ag.operands.map c.operandShape)
               else (ag.operands.map c.operandShape).headD Shape.token,
               ag.shape],
            operands := ag.operands,
            collectiveData := ag.collectiveData }).1.modifyInstruction
          c.nextId (setMetadataAndBackendConfig ag)).addInstruction
          { opcode := .allGatherDone, shape := ag.shape,
            operands := [c.nextId] }).1.replaceInstruction
        ag.id (c.nextId + 1) := rfl
  rw [heq]
  rw [find?_replace_ne _ _ _ _ hne]
  rw [find?_addInstruction_ne _ _ _
    (by simp only [Computation.addInstruction, Computation.modifyInstruction]
        omega)]
  rw [find?_modify_ne _ _ _ _ (setMetadataAndBackendConfig_id ag) (by omega)]
  rw [find?_addInstruction_ne _ _ _ (by omega)]
  rw [hjb]
  rfl

theorem rewriteAllToAll_find_other (c : Computation) (ata : Instruction)
    (hb : ∀ j ∈ c.instructions, j.id < c.nextId)
    {j : Nat} {b : Instruction} (hne : j ≠ ata.id)
    (hjb : c.find? j = some b) :
    (rewriteAllToAll c ata).1.find? j =
      some (remapOperands ata.id (c.nextId + 1) b) := by
  have hjlt : j < c.nextId := by
    obtain ⟨hm, hid⟩ := Computation.mem_of_find? hjb
    exact hid ▸ hb _ hm
  have heq : (rewriteAllToAll c ata).1 =
      (((c.addInstruction
          { opcode := .asyncStart,
            shape := Shape.tuple
              ([Shape.tuple (ata.operands.map c.operandShape), ata.shape] ++
                [Shape.u32scalar, Shape.u32scalar]),
            operands := ata.operands,
            metadata := ata.metadata,
            backendConfig := ata.backendConfig,
            collectiveData := ata.collectiveData }).1).addInstruction
          { opcode := .asyncDone, shape := ata.shape,
            operands := [c.nextId], metadata := ata.metadata,
            backendConfig := ata.backendConfig }).1.replaceInstruction
        ata.id (c.nextId + 1) := rfl
  rw [heq]
  rw [find?_replace_ne _ _ _ _ hne]
  rw [find?_addInstruction_ne _ _ _
    (by simp only [Computation.addInstruction]; omega)]
  rw [find?_addInstruction_ne _ _ _ (by omega)]
  rw [hjb]
  rfl

theorem rewriteAllReduce_count (c : Computation) (ar : Instruction)
    (hwf : c.WF) (hmem : ar ∈ c.instructions)
    (q : HloOpcode → String → Bool) :
    sigCount (rewriteAllReduce c ar).1 q +
      (if q ar.opcode ar.customCallTarget then 1 else 0) =
    sigCount c q + (if q .allReduceStart "" then 1 else 0) +
      (if q .allReduceDone "" then 1 else 0) := by
  have har : ar.id < c.nextId := hwf.2 _ hmem
  have heq : (rewriteAllReduce c ar).1 =
      (((c.addInstruction
          { opcode := .allReduceStart, shape := ar.shape,
            operands := ar.operands,
            collectiveData := ar.collectiveData }).1.modifyInstruction
          c.nextId (setMetadataAndBackendConfig ar)).addInstruction
          { opcode := .allReduceDone, shape := ar.shape,
            operands := [c.nextId] }).1.replaceInstruction
        ar.id (c.nextId + 1) := rfl
  rw [heq]
  have hwf3 : (((c.addInstruction
      { opcode := .allReduceStart, shape := ar.shape,
        operands := ar.operands,
        collectiveData := ar.collectiveData }).1.modifyInstruction
      c.nextId (setMetadataAndBackendConfig ar)).addInstruction
      { opcode := .allReduceDone, shape := ar.shape,
        operands := [c.nextId] }).1.WF :=
    WF_addInstruction _ _ (WF_modifyInstruction _ _ _
      (setMetadataAndBackendConfig_id ar) (WF_addInstruction _ _ hwf))
  have hmem3 : ar ∈ (((c.addInstruction
      { opcode := .allReduceStart, shape := ar.shape,
        operands := ar.operands,
        collectiveData := ar.collectiveData }).1.modifyInstruction
      c.nextId (setMetadataAndBackendConfig ar)).addInstruction
      { opcode := .allReduceDone, shape := ar.shape,
        operands := [c.nextId] }).1.instructions :=
    mem_addInstruction _ _ (mem_modifyInstruction_of_ne _ _ _
      (mem_addInstruction _ _ hmem) (by omega))
  have h4 := sigCount_replace _ (c.nextId + 1) hwf3.1 hmem3 q
  have h3 : sigCount (((c.addInstruction
      { opcode := .allReduceStart, shape := ar.shape,
        operands := ar.operands,
        collectiveData := ar.collectiveData }).1.modifyInstruction
      c.nextId (setMetadataAndBackendConfig ar)).addInstruction
      { opcode := .allReduceDone, shape := ar.shape,
        operands := [c.nextId] }).1 q =
      sigCount c q + (if q .allReduceStart "" then 1 else 0) +
        (if q .allReduceDone "" then 1 else 0) := by
    rw [sigCount_add,
      sigCount_modify _ _ _ (by intro x; exact ⟨rfl, rfl⟩),
      sigCount_add]
  omega

theorem rewriteAllGather_count (c : Computation) (ag : Instruction)
    (hwf : c.WF) (hmem : ag ∈ c.instructions)
    (q : HloOpcode → String → Bool) :
    sigCount (rewriteAllGather c ag).1 q +
      (if q ag.opcode ag.customCallTarget then 1 else 0) =
    sigCount c q + (if q .allGatherStart "" then 1 else 0) +
      (if q .allGatherDone "" then 1 else 0) := by
  have hag : ag.id < c.nextId := hwf.2 _ hmem
  have heq : (rewriteAllGather c ag).1 =
      (((c.addInstruction
          { opcode := .allGatherStart,
            shape := Shape.tuple
              [if ag.operands.length > 1 then
                 Shape.tuple (ag.operands.map c.operandShape)
               else (ag.operands.map c.operandShape).headD Shape.token,
               ag.shape],
            operands := ag.operands,
            collectiveData := ag.collectiveData }).1.modifyInstruction
          c.nextId (setMetadataAndBackendConfig ag)).addInstruction
          { opcode := .allGatherDone, shape := ag.shape,
            operands := [c.nextId] }).1.replaceInstruction
        ag.id (c.nextId + 1) := rfl
  rw [heq]
  have hwf3 := WF_addInstruction
    ((c.addInstruction
      { opcode := .allGatherStart,
        shape := Shape.tuple
          [if ag.operands.length > 1 then
             Shape.tuple (ag.operands.map c.operandShape)
           else (ag.operands.map c.operandShape).headD Shape.token,
           ag.shape],
        operands := ag.operands,
        collectiveData := ag.collectiveData }).1.modifyInstruction
      c.nextId (setMetadataAndBackendConfig ag))
    { opcode := .allGatherDone, shape := ag.shape, operands := [c.nextId] }
    (WF_modifyInstruction _ _ _ (setMetadataAndBackendConfig_id ag)
      (WF_addInstruction _ _ hwf))
  have hmem3 := mem_addInstruction
    ((c.addInstruction
      { opcode := .allGatherStart,
        shape := Shape.tuple
          [if ag.operands.length > 1 then
             Shape.tuple (ag.operands.map c.operandShape)
           else (ag.operands.map c.operandShape).headD Shape.token,
           ag.shape],
        operands := ag.operands,
        collectiveData := ag.collectiveData }).1.modifyInstruction
      c.nextId (setMetadataAndBackendConfig ag))
    { opcode := .allGatherDone, shape := ag.shape, operands := [c.nextId] }
    (mem_modifyInstruction_of_ne _ _ _ (mem_addInstruction _ _ hmem)
      (by omega))
  have h4 := sigCount_replace _ (c.nextId + 1) hwf3.1 hmem3 q
  have h3 : sigCount (((c.addInstruction
      { opcode := .allGatherStart,
        shape := Shape.tuple
          [if ag.operands.length > 1 then
             Shape.tuple (ag.operands.map c.operandShape)
           else (ag.operands.map c.operandShape).headD Shape.token,
           ag.shape],
        operands := ag.operands,
        collectiveData := ag.collectiveData }).1.modifyInstruction
      c.nextId (setMetadataAndBackendConfig ag)).addInstruction
      { opcode := .allGatherDone, shape := ag.shape,
        operands := [c.nextId] }).1 q =
      sigCount c q + (if q .allGatherStart "" then 1 else 0) +
        (if q .allGatherDone "" then 1 else 0) := by
    rw [sigCount_add,
      sigCount_modify _ _ _ (by intro x; exact ⟨rfl, rfl⟩),
      sigCount_add]
  omega

theorem rewriteAllToAll_count (c : Computation) (ata : Instruction)
    (hwf : c.WF) (hmem : ata ∈ c.instructions)
    (q : HloOpcode → String → Bool) :
    sigCount (rewriteAllToAll c ata).1 q +
      (if q ata.opcode ata.customCallTarget then 1 else 0) =
    sigCount c q + (if q .asyncStart "" then 1 else 0) +
      (if q .asyncDone "" then 1 else 0) := by
  have hata : ata.id < c.nextId := hwf.2 _ hmem
  have heq : (rewriteAllToAll c ata).1 =
      (((c.addInstruction
          { opcode := .asyncStart,
            shape := Shape.tuple
              ([Shape.tuple (ata.operands.map c.operandShape), ata.shape] ++
                [Shape.u32scalar, Shape.u32scalar]),
            operands := ata.operands,
            metadata := ata.metadata,
            backendConfig := ata.backendConfig,
            collectiveData := ata.collectiveData }).1).addInstruction
          { opcode := .asyncDone, shape := ata.shape,
            operands := [c.nextId], metadata := ata.metadata,
            backendConfig := ata.backendConfig }).1.replaceInstruction
        ata.id (c.nextId + 1) := rfl
  rw [heq]
  have hwf3 := WF_addInstruction
    (c.addInstruction
      { opcode := .asyncStart,
        shape := Shape.tuple
          ([Shape.tuple (ata.operands.map c.operandShape), ata.shape] ++
            [Shape.u32scalar, Shape.u32scalar]),
        operands := ata.operands,
        metadata := ata.metadata,
        backendConfig := ata.backendConfig,
        collectiveData := ata.collectiveData }).1
    { opcode := .asyncDone, shape := ata.shape,
      operands := [c.nextId], metadata := ata.metadata,
      backendConfig := ata.backendConfig }
    (WF_addInstruction _ _ hwf)
  have hmem3 := mem_addInstruction
    (c.addInstruction
      { opcode := .asyncStart,
        shape := Shape.tuple
          ([Shape.tuple (ata.operands.map c.operandShape), ata.shape] ++
            [Shape.u32scalar, Shape.u32scalar]),
        operands := ata.operands,
        metadata := ata.metadata,
        backendConfig := ata.backendConfig,
        collectiveData := ata.collectiveData }).1
    { opcode := .asyncDone, shape := ata.shape,
      operands := [c.nextId], metadata := ata.metadata,
      backendConfig := ata.backendConfig }
    (mem_addInstruction _ _ hmem)
  have h4 := sigCount_replace _ (c.nextId + 1) hwf3.1 hmem3 q
  have h3 : sigCount ((c.addInstruction
      { opcode := .asyncStart,
        shape := Shape.tuple
          ([Shape.tuple (ata.operands.map c.operandShape), ata.shape] ++
            [Shape.u32scalar, Shape.u32scalar]),
        operands := ata.operands,
        metadata := ata.metadata,
        backendConfig := ata.backendConfig,
        collectiveData := ata.collectiveData }).1.addInstruction
      { opcode := .asyncDone, shape := ata.shape,
        operands := [c.nextId], metadata := ata.metadata,
        backendConfig := ata.backendConfig }).1 q =
      sigCount c q + (if q .asyncStart "" then 1 else 0) +
        (if q .asyncDone "" then 1 else 0) := by
    rw [sigCount_add, sigCount_add]
  omega

theorem WF_cpFinish (track : Instruction → Bool) (c1 : Computation)
    (startId : Nat) (cp : Instruction) (hwf1 : c1.WF) :
    (cpFinish track c1 startId cp).1.WF := by
  unfold cpFinish
  cases htr : track cp with
  | false =>
    simp only [htr, Bool.not_false, if_true]
    exact WF_replaceInstruction _ _ _ (WF_addInstruction _ _
      (WF_modifyInstruction _ _ _ (setMetadataAndBackendConfig_id cp) hwf1))
  | true =>
    simp only [htr, Bool.not_true, Bool.false_eq_true, if_false]
    exact WF_replaceInstruction _ _ _
      (WF_modifyInstruction _ _ _ setSideEffect_id
        (WF_modifyInstruction _ _ _ setSideEffect_id
          (WF_modifyInstruction _ _ _ (addControlPredecessor_id _)
            (WF_addInstruction _ _ (WF_addInstruction _ _
              (WF_modifyInstruction _ _ _
                (setMetadataAndBackendConfig_id cp) hwf1))))))

theorem cpFinish_nextId (track : Instruction → Bool) (c1 : Computation)
    (startId : Nat) (cp : Instruction) :
    (cpFinish track c1 startId cp).1.nextId =
      if track cp then c1.nextId + 2 else c1.nextId + 1 := by
  unfold cpFinish
  cases htr : track cp <;> rfl

theorem cpFinish_count (track : Instruction → Bool) (c1 : Computation)
    (startId : Nat) (cp : Instruction) (hwf1 : c1.WF)
    (hmem : cp ∈ c1.instructions) (hne : cp.id ≠ startId)
    (q : HloOpcode → String → Bool) :
    sigCount (cpFinish track c1 startId cp).1 q +
      (if q cp.opcode cp.customCallTarget then 1 else 0) =
    sigCount c1 q +
      cond (track cp)
        ((if q .customCall "$cp_recv_done" then 1 else 0) +
         (if q .customCall "$cp_send_done" then 1 else 0))
        (if q .collectivePermuteDone "" then 1 else 0) := by
  have hcp_lt : cp.id < c1.nextId := hwf1.2 _ hmem
  cases htr : track cp with
  | false =>
    have heq : cpFinish track c1 startId cp =
        (((c1.modifyInstruction startId
            (setMetadataAndBackendConfig cp)).addInstruction
            { opcode := .collectivePermuteDone, shape := cp.shape,
              operands := [startId] }).1.replaceInstruction cp.id c1.nextId,
         ⟨startId, c1.nextId⟩) := by
      unfold cpFinish
      rw [htr]
      rfl
    rw [heq]
    simp only [Bool.cond_false]
    have hwf3 : ((c1.modifyInstruction startId
        (setMetadataAndBackendConfig cp)).addInstruction
        { opcode := .collectivePermuteDone, shape := cp.shape,
          operands := [startId] }).1.WF :=
      WF_addInstruction _ _
        (WF_modifyInstruction _ _ _ (setMetadataAndBackendConfig_id cp) hwf1)
    have hmem3 : cp ∈ ((c1.modifyInstruction startId
        (setMetadataAndBackendConfig cp)).addInstruction
        { opcode := .collectivePermuteDone, shape := cp.shape,
          operands := [startId] }).1.instructions :=
      mem_addInstruction _ _ (mem_modifyInstruction_of_ne _ _ _ hmem hne)
    have h4 := sigCount_replace _ c1.nextId hwf3.1 hmem3 q
    have h3 : sigCount ((c1.modifyInstruction startId
        (setMetadataAndBackendConfig cp)).addInstruction
        { opcode := .collectivePermuteDone, shape := cp.shape,
          operands := [startId] }).1 q =
        sigCount c1 q + (if q .collectivePermuteDone "" then 1 else 0) := by
      rw [sigCount_add,
        sigCount_modify _ _ _ (by intro x; exact ⟨rfl, rfl⟩)]
    omega
  | true =>
    have heq : cpFinish track c1 startId cp =
        (((((((c1.modifyInstruction startId
            (setMetadataAndBackendConfig cp)).addInstruction
            { opcode := .customCall, shape := cp.shape, operands := [startId],
              customCallTarget := "$cp_recv_done" }).1.addInstruction
            { opcode := .customCall, shape := .token, operands := [startId],
              customCallTarget := "$cp_send_done" }).1.modifyInstruction
            (c1.nextId + 1) (addControlPredecessor c1.nextId)).modifyInstruction
            (c1.nextId + 1) setSideEffect).modifyInstruction
            c1.nextId setSideEffect).replaceInstruction
          cp.id c1.nextId,
         ⟨startId, c1.nextId⟩) := by
      unfold cpFinish
      rw [htr]
      rfl
    rw [heq]
    simp only [Bool.cond_true]
    have hwf3 : ((((((c1.modifyInstruction startId
        (setMetadataAndBackendConfig cp)).addInstruction
        { opcode := .customCall, shape := cp.shape, operands := [startId],
          customCallTarget := "$cp_recv_done" }).1.addInstruction
        { opcode := .customCall, shape := .token, operands := [startId],
          customCallTarget := "$cp_send_done" }).1.modifyInstruction
        (c1.nextId + 1) (addControlPredecessor c1.nextId)).modifyInstruction
        (c1.nextId + 1) setSideEffect).modifyInstruction
        c1.nextId setSideEffect).WF :=
      WF_modifyInstruction _ _ _ setSideEffect_id
        (WF_modifyInstruction _ _ _ setSideEffect_id
          (WF_modifyInstruction _ _ _ (addControlPredecessor_id _)
            (WF_addInstruction _ _ (WF_addInstruction _ _
              (WF_modifyInstruction _ _ _
                (setMetadataAndBackendConfig_id cp) hwf1)))))
    have hmem3 : cp ∈ ((((((c1.modifyInstruction startId
        (setMetadataAndBackendConfig cp)).addInstruction
        { opcode := .customCall, shape := cp.shape, operands := [startId],
          customCallTarget := "$cp_recv_done" }).1.addInstruction
        { opcode := .customCall, shape := .token, operands := [startId],
          customCallTarget := "$cp_send_done" }).1.modifyInstruction
        (c1.nextId + 1) (addControlPredecessor c1.nextId)).modifyInstruction
        (c1.nextId + 1) setSideEffect).modifyInstruction
        c1.nextId setSideEffect).instructions :=
      mem_modifyInstruction_of_ne _ _ _
        (mem_modifyInstruction_of_ne _ _ _
          (mem_modifyInstruction_of_ne _ _ _
            (mem_addInstruction _ _ (mem_addInstruction _ _
              (mem_modifyInstruction_of_ne _ _ _ hmem hne)))
            (by omega))
          (by omega))
        (by omega)
    have h4 := sigCount_replace _ c1.nextId hwf3.1 hmem3 q
    have h3 : sigCount ((((((c1.modifyInstruction startId
        (setMetadataAndBackendConfig cp)).addInstruction
        { opcode := .customCall, shape := cp.shape, operands := [startId],
          customCallTarget := "$cp_recv_done" }).1.addInstruction
        { opcode := .customCall, shape := .token, operands := [startId],
          customCallTarget := "$cp_send_done" }).1.modifyInstruction
        (c1.nextId + 1) (addControlPredecessor c1.nextId)).modifyInstruction
        (c1.nextId + 1) setSideEffect).modifyInstruction
        c1.nextId setSideEffect) q =
        sigCount c1 q + (if q .customCall "$cp_recv_done" then 1 else 0) +
          (if q .customCall "$cp_send_done" then 1 else 0) := by
      rw [sigCount_modify _ _ _ (by intro x; exact ⟨rfl, rfl⟩),
        sigCount_modify _ _ _ (by intro x; exact ⟨rfl, rfl⟩),
        sigCount_modify _ _ _ (by intro x; exact ⟨rfl, rfl⟩),
        sigCount_add, sigCount_add,
        sigCount_modify _ _ _ (by intro x; exact ⟨rfl, rfl⟩)]
    omega

theorem cpFinish_find_other (track : Instruction → Bool) (c1 : Computation)
    (startId : Nat) (cp : Instruction) {j : Nat} {b : Instruction}
    (hj : j ≠ cp.id) (hjs : j ≠ startId) (hjlt : j < c1.nextId)
    (hjb : c1.find? j = some b) :
    (cpFinish track c1 startId cp).1.find? j =
      some (remapOperands cp.id c1.nextId b) := by
  cases htr : track cp with
  | false =>
    have heq : cpFinish track c1 startId cp =
        (((c1.modifyInstruction startId
            (setMetadataAndBackendConfig cp)).addInstruction
            { opcode := .collectivePermuteDone, shape := cp.shape,
              operands := [startId] }).1.replaceInstruction cp.id c1.nextId,
         ⟨startId, c1.nextId⟩) := by
      unfold cpFinish
      rw [htr]
      rfl
    rw [heq]
    rw [find?_replace_ne _ _ _ _ hj]
    rw [find?_addInstruction_ne _ _ _
      (by simp only [Computation.modifyInstruction]; omega)]
    rw [find?_modify_ne _ _ _ _ (setMetadataAndBackendConfig_id cp) hjs]
    rw [hjb]
    rfl
  | true =>
    have heq : cpFinish track c1 startId cp =
        (((((((c1.modifyInstruction startId
            (setMetadataAndBackendConfig cp)).addInstruction
            { opcode := .customCall, shape := cp.shape, operands := [startId],
              customCallTarget := "$cp_recv_done" }).1.addInstruction
            { opcode := .customCall, shape := .token, operands := [startId],
              customCallTarget := "$cp_send_done" }).1.modifyInstruction
            (c1.nextId + 1) (addControlPredecessor c1.nextId)).modifyInstruction
            (c1.nextId + 1) setSideEffect).modifyInstruction
            c1.nextId setSideEffect).replaceInstruction
          cp.id c1.nextId,
         ⟨startId, c1.nextId⟩) := by
      unfold cpFinish
      rw [htr]
      rfl
    rw [heq]
    rw [find?_replace_ne _ _ _ _ hj]
    rw [find?_modify_ne _ _ _ _ setSideEffect_id (by omega)]
    rw [find?_modify_ne _ _ _ _ setSideEffect_id (by omega)]
    rw [find?_modify_ne _ _ _ _ (addControlPredecessor_id c1.nextId)
      (by omega)]
    rw [find?_addInstruction_ne _ _ _
      (by simp only [Computation.addInstruction, Computation.modifyInstruction]
          omega)]
    rw [find?_addInstruction_ne _ _ _
      (by simp only [Computation.modifyInstruction]; omega)]
    rw [find?_modify_ne _ _ _ _ (setMetadataAndBackendConfig_id cp) hjs]
    rw [hjb]
    rfl

theorem WF_rewriteCollectivePermute
    (infer : List Shape → Except String Shape) (track : Instruction → Bool)
    (c : Computation) (cp : Instruction) (c' : Computation)
    (pr : ReplacedAsync) (hwf : c.WF)
    (hok : rewriteCollectivePermute infer track c cp = .ok (c', pr)) :
    c'.WF := by
  rcases rewriteCollectivePermute_cases infer track c cp (c', pr) hok with
    ⟨operand, hops, hres⟩ | ⟨sh, hl4, hinf, hcase⟩
  · have hc' := congrArg Prod.fst hres
    simp only at hc'
    rw [hc']
    exact WF_cpFinish _ _ _ _ (WF_addInstruction _ _ hwf)
  · rcases hcase with ⟨_, hres⟩ | ⟨_, hres⟩ <;>
      (have hc' := congrArg Prod.fst hres; simp only at hc'; rw [hc'])
    · exact WF_cpFinish _ _ _ _ (WF_addInstruction _ _ hwf)
    · exact WF_cpFinish _ _ _ _
        (WF_modifyInstruction _ _ _ setDisjointAttr_id
          (WF_addInstruction _ _ hwf))

theorem rewriteCollectivePermute_nextId_ge
    (infer : List Shape → Except String Shape) (track : Instruction → Bool)
    (c : Computation) (cp : Instruction) (c' : Computation)
    (pr : ReplacedAsync)
    (hok : rewriteCollectivePermute infer track c cp = .ok (c', pr)) :
    c.nextId ≤ c'.nextId := by
  rcases rewriteCollectivePermute_cases infer track c cp (c', pr) hok with
    ⟨operand, hops, hres⟩ | ⟨sh, hl4, hinf, hcase⟩
  · have hc' := congrArg Prod.fst hres
    simp only at hc'
    rw [hc', cpFinish_nextId]
    cases track cp <;> simp [Computation.addInstruction] <;> omega
  · rcases hcase with ⟨_, hres⟩ | ⟨_, hres⟩ <;>
      (have hc' := congrArg Prod.fst hres; simp only at hc';
        rw [hc', cpFinish_nextId]) <;>
      (cases track cp <;>
        simp [Computation.addInstruction, Computation.modifyInstruction] <;>
        omega)

theorem rewriteCollectivePermute_count
    (infer : List Shape → Except String Shape) (track : Instruction → Bool)
    (c : Computation) (cp : Instruction) (c' : Computation)
    (pr : ReplacedAsync) (hwf : c.WF) (hmem : cp ∈ c.instructions)
    (hok : rewriteCollectivePermute infer track c cp = .ok (c', pr))
    (q : HloOpcode → String → Bool) :
    sigCount c' q + (if q cp.opcode cp.customCallTarget then 1 else 0) =
    sigCount c q + (if q .collectivePermuteStart "" then 1 else 0) +
      cond (track cp)
        ((if q .customCall "$cp_recv_done" then 1 else 0) +
         (if q .customCall "$cp_send_done" then 1 else 0))
        (if q .collectivePermuteDone "" then 1 else 0) := by
  have hcp_lt : cp.id < c.nextId := hwf.2 _ hmem
  rcases rewriteCollectivePermute_cases infer track c cp (c', pr) hok with
    ⟨operand, hops, hres⟩ | ⟨sh, hl4, hinf, hcase⟩
  · have hc' := congrArg Prod.fst hres
    simp only at hc'
    rw [hc']
    have h2 := cpFinish_count track
      (c.addInstruction
        { opcode := .collectivePermuteStart,
          shape := Shape.tuple
            [c.operandShape operand, cp.shape, .u32scalar, .u32scalar],
          operands := [operand],
          collectiveData := cp.collectiveData }).1
      c.nextId cp
      (WF_addInstruction _ _ hwf) (mem_addInstruction _ _ hmem)
      (by omega) q
    have h1 : sigCount (c.addInstruction
        { opcode := .collectivePermuteStart,
          shape := Shape.tuple
            [c.operandShape operand, cp.shape, .u32scalar, .u32scalar],
          operands := [operand],
          collectiveData := cp.collectiveData }).1 q =
        sigCount c q +
          (if q .collectivePermuteStart "" then 1 else 0) := by
      rw [sigCount_add]
    omega
  · rcases hcase with ⟨_, hres⟩ | ⟨_, hres⟩ <;>
      (have hc' := congrArg Prod.fst hres; simp only at hc'; rw [hc'])
    · have h2 := cpFinish_count track
        (c.addInstruction
          { opcode := .collectivePermuteStart, shape := sh,
            operands := cp.operands,
            collectiveData := cp.collectiveData }).1
        c.nextId cp
        (WF_addInstruction _ _ hwf) (mem_addInstruction _ _ hmem)
        (by omega) q
      have h1 : sigCount (c.addInstruction
          { opcode := .collectivePermuteStart, shape := sh,
            operands := cp.operands,
            collectiveData := cp.collectiveData }).1 q =
          sigCount c q +
            (if q .collectivePermuteStart "" then 1 else 0) := by
        rw [sigCount_add]
      omega
    · have h2 := cpFinish_count track
        ((c.addInstruction
          { opcode := .collectivePermuteStart, shape := sh,
            operands := cp.operands,
            collectiveData := cp.collectiveData }).1.modifyInstruction
          c.nextId setDisjointAttr)
        c.nextId cp
        (WF_modifyInstruction _ _ _ setDisjointAttr_id
          (WF_addInstruction _ _ hwf))
        (mem_modifyInstruction_of_ne _ _ _ (mem_addInstruction _ _ hmem)
          (by omega))
        (by omega) q
      have h1 : sigCount ((c.addInstruction
          { opcode := .collectivePermuteStart, shape := sh,
            operands := cp.operands,
            collectiveData := cp.collectiveData }).1.modifyInstruction
          c.nextId setDisjointAttr) q =
          sigCount c q +
            (if q .collectivePermuteStart "" then 1 else 0) := by
        rw [sigCount_modify _ _ _ (by intro x; exact ⟨rfl, rfl⟩),
          sigCount_add]
      omega

theorem rewriteCollectivePermute_find_other
    (infer : List Shape → Except String Shape) (track : Instruction → Bool)
    (c : Computation) (cp : Instruction) (c' : Computation)
    (pr : ReplacedAsync)
    (hb : ∀ j ∈ c.instructions, j.id < c.nextId)
    {j : Nat} {b : Instruction} (hj : j ≠ cp.id)
    (hjb : c.find? j = some b)
    (hok : rewriteCollectivePermute infer track c cp = .ok (c', pr)) :
    c'.find? j = some (remapOperands cp.id (c.nextId + 1) b) := by
  have hjlt : j < c.nextId := by
    obtain ⟨hm, hid⟩ := Computation.mem_of_find? hjb
    exact hid ▸ hb _ hm
  rcases rewriteCollectivePermute_cases infer track c cp (c', pr) hok with
    ⟨operand, hops, hres⟩ | ⟨sh, hl4, hinf, hcase⟩
  · have hc' := congrArg Prod.fst hres
    simp only at hc'
    rw [hc']
    exact cpFinish_find_other track _ c.nextId cp hj (by omega)
      (by simp only [Computation.addInstruction]; omega)
      (by rw [find?_addInstruction_ne _ _ _ (by omega)]; exact hjb)
  · rcases hcase with ⟨_, hres⟩ | ⟨_, hres⟩ <;>
      (have hc' := congrArg Prod.fst hres; simp only at hc'; rw [hc'])
    · exact cpFinish_find_other track _ c.nextId cp hj (by omega)
        (by simp only [Computation.addInstruction]; omega)
        (by rw [find?_addInstruction_ne _ _ _ (by omega)]; exact hjb)
    · exact cpFinish_find_other track _ c.nextId cp hj (by omega)
        (by simp only [Computation.addInstruction,
              Computation.modifyInstruction]
            omega)
        (by rw [find?_modify_ne _ _ _ _ setDisjointAttr_id (by omega),
              find?_addInstruction_ne _ _ _ (by omega)]
            exact hjb)

theorem cpFinish_fields (track : Instruction → Bool) (c1 : Computation)
    (startId : Nat) (cp : Instruction) :
    (cpFinish track c1 startId cp).1.executionThread = c1.executionThread ∧
    (cpFinish track c1 startId cp).1.isFusionComputation =
      c1.isFusionComputation ∧
    (cpFinish track c1 startId cp).1.id = c1.id := by
  unfold cpFinish
  cases track cp <;> exact ⟨rfl, rfl, rfl⟩

theorem rewriteCollectivePermute_fields
    (infer : List Shape → Except String Shape) (track : Instruction → Bool)
    (c : Computation) (cp : Instruction) (c' : Computation)
    (pr : ReplacedAsync)
    (hok : rewriteCollectivePermute infer track c cp = .ok (c', pr)) :
    c'.executionThread = c.executionThread ∧
    c'.isFusionComputation = c.isFusionComputation ∧
    c'.id = c.id := by
  rcases rewriteCollectivePermute_cases infer track c cp (c', pr) hok with
    ⟨operand, hops, hres⟩ | ⟨sh, hl4, hinf, hcase⟩
  · have hc' := congrArg Prod.fst hres
    simp only at hc'
    rw [hc']
    exact cpFinish_fields _ _ _ _
  · rcases hcase with ⟨_, hres⟩ | ⟨_, hres⟩ <;>
      (have hc' := congrArg Prod.fst hres; simp only at hc'; rw [hc']) <;>
      exact cpFinish_fields _ _ _ _

theorem rewriteCandidate_step
    (infer : List Shape → Except String Shape)
    (cfg : AsyncCollectiveCreator) (tk : Bool)
    (htk : ∀ i, cfg.trackSendRecvSeparately i = tk)
    (c : Computation) (id : Nat) (b : Instruction)
    (hwf : c.WF) (hfind : c.find? id = some b)
    (hsync : b.opcode.isSyncCollective = true)
    (c' : Computation) (pr : Option ReplacedAsync) (ch : Bool)
    (hok : rewriteCandidate infer cfg c id = .ok (c', pr, ch)) :
    c'.WF ∧ c.nextId ≤ c'.nextId ∧
    c'.executionThread = c.executionThread ∧
    c'.isFusionComputation = c.isFusionComputation ∧
    c'.id = c.id ∧
    (∀ j b2, j ≠ id → c.find? j = some b2 →
      ∃ b3, c'.find? j = some b3 ∧ b3.opcode = b2.opcode ∧
        b3.customCallTarget = b2.customCallTarget) ∧
    (∀ q, sigCount c' q +
        (if q b.opcode b.customCallTarget then 1 else 0) =
      sigCount c q + createdCount tk q b.opcode) := by
  obtain ⟨hmem, hid⟩ := Computation.mem_of_find? hfind
  have hblt : b.id < c.nextId := hwf.2 _ hmem
  rw [rewriteCandidate_eq_of_find? infer cfg c id b hfind] at hok
  cases hco : b.opcode
  case allReduce =>
    rw [rewriteInstruction_allReduce infer cfg c b hco] at hok
    simp only [Except.ok.injEq, Prod.mk.injEq] at hok
    obtain ⟨hc', hpr, hch⟩ := hok
    subst hc'
    refine ⟨WF_rewriteAllReduce c b hwf,
      by rw [rewriteAllReduce_nextId]; omega, rfl, rfl, rfl, ?_, ?_⟩
    · intro j b2 hne hjb
      exact ⟨_, rewriteAllReduce_find_other c b hwf.2
        (by rw [hid]; exact hne) hjb, rfl, rfl⟩
    · intro q
      have hcount := rewriteAllReduce_count c b hwf hmem q
      rw [hco] at hcount
      simp only [createdCount]
      omega
  case allGather =>
    rw [rewriteInstruction_allGather infer cfg c b hco] at hok
    simp only [Except.ok.injEq, Prod.mk.injEq] at hok
    obtain ⟨hc', hpr, hch⟩ := hok
    subst hc'
    refine ⟨WF_rewriteAllGather c b hwf,
      by rw [rewriteAllGather_nextId]; omega, rfl, rfl, rfl, ?_, ?_⟩
    · intro j b2 hne hjb
      exact ⟨_, rewriteAllGather_find_other c b hwf.2
        (by rw [hid]; exact hne) hjb, rfl, rfl⟩
    · intro q
      have hcount := rewriteAllGather_count c b hwf hmem q
      rw [hco] at hcount
      simp only [createdCount]
      omega
  case allToAll =>
    rw [rewriteInstruction_allToAll infer cfg c b hco] at hok
    simp only [Except.ok.injEq, Prod.mk.injEq] at hok
    obtain ⟨hc', hpr, hch⟩ := hok
    subst hc'
    refine ⟨WF_rewriteAllToAll c b hwf,
      by rw [rewriteAllToAll_nextId]; omega, rfl, rfl, rfl, ?_, ?_⟩
    · intro j b2 hne hjb
      exact ⟨_, rewriteAllToAll_find_other c b hwf.2
        (by rw [hid]; exact hne) hjb, rfl, rfl⟩
    · intro q
      have hcount := rewriteAllToAll_count c b hwf hmem q
      rw [hco] at hcount
      simp only [createdCount]
      omega
  case collectivePermute =>
    rw [rewriteInstruction_collectivePermute infer cfg c b hco] at hok
    cases hcp : rewriteCollectivePermute infer cfg.trackSendRecvSeparately
        c b with
    | error r0 =>
      rw [hcp] at hok
      cases hok
    | ok p =>
      rw [hcp] at hok
      simp only [Except.ok.injEq, Prod.mk.injEq] at hok
      obtain ⟨hc', hpr, hch⟩ := hok
      have hcp2 : rewriteCollectivePermute infer cfg.trackSendRecvSeparately
          c b = .ok (p.1, p.2) := by rw [hcp]
      subst hc'
      obtain ⟨hf1, hf2, hf3⟩ := rewriteCollectivePermute_fields infer
        cfg.trackSendRecvSeparately c b p.1 p.2 hcp2
      refine ⟨WF_rewriteCollectivePermute infer cfg.trackSendRecvSeparately
          c b p.1 p.2 hwf hcp2,
        rewriteCollectivePermute_nextId_ge infer cfg.trackSendRecvSeparately
          c b p.1 p.2 hcp2, hf1, hf2, hf3, ?_, ?_⟩
      · intro j b2 hne hjb
        exact ⟨_, rewriteCollectivePermute_find_other infer
          cfg.trackSendRecvSeparately c b p.1 p.2 hwf.2
          (by rw [hid]; exact hne) hjb hcp2, rfl, rfl⟩
      · intro q
        have hcount := rewriteCollectivePermute_count infer
          cfg.trackSendRecvSeparately c b p.1 p.2 hwf hmem hcp2 q
        rw [hco] at hcount
        rw [htk b] at hcount
        simp only [createdCount]
        cases tk <;>
          simp only [Bool.cond_false, Bool.cond_true, if_true, if_false,
            Bool.false_eq_true] at hcount ⊢ <;>
          omega
  all_goals
    rw [hco] at hsync
    simp [HloOpcode.isSyncCollective] at hsync

/-! ## The operand-count invariant and the CHECK_EQ crash -/

theorem CPok_add (c : Computation) (i : Instruction)
    (hi : i.opcode ≠ .collectivePermute) (h : c.CPOperandCountOk) :
    (c.addInstruction i).1.CPOperandCountOk := by
  intro j hj hop
  simp only [Computation.addInstruction, List.mem_append,
    List.mem_singleton] at hj
  rcases hj with hj | rfl
  · exact h j hj hop
  · exact absurd hop hi

theorem CPok_modify (c : Computation) (id : Nat)
    (f : Instruction → Instruction)
    (hf : ∀ x, (f x).opcode = x.opcode ∧ (f x).operands = x.operands)
    (h : c.CPOperandCountOk) :
    (c.modifyInstruction id f).CPOperandCountOk := by
  intro j hj hop
  simp only [Computation.modifyInstruction, List.mem_map] at hj
  obtain ⟨b, hb, rfl⟩ := hj
  by_cases hcase : b.id = id
  · simp only [hcase, if_true] at hop ⊢
    rw [(hf b).2]
    rw [(hf b).1] at hop
    exact h b hb hop
  · simp only [hcase, if_false] at hop ⊢
    exact h b hb hop

theorem CPok_replace (c : Computation) (o n : Nat)
    (h : c.CPOperandCountOk) :
    (c.replaceInstruction o n).CPOperandCountOk := by
  intro j hj hop
  simp only [Computation.replaceInstruction, List.mem_map,
    List.mem_filter] at hj
  obtain ⟨b, ⟨hb, _⟩, rfl⟩ := hj
  simp only [remapOperands] at hop ⊢
  rw [List.length_map]
  exact h b hb hop

theorem CPok_rewriteAllReduce (c : Computation) (ar : Instruction)
    (h : c.CPOperandCountOk) :
    (rewriteAllReduce c ar).1.CPOperandCountOk := by
  exact CPok_replace _ _ _ (CPok_add _ _ (by simp)
    (CPok_modify _ _ _ (by intro x; exact ⟨rfl, rfl⟩)
      (CPok_add _ _ (by simp) h)))

theorem CPok_rewriteAllGather (c : Computation) (ag : Instruction)
    (h : c.CPOperandCountOk) :
    (rewriteAllGather c ag).1.CPOperandCountOk := by
  exact CPok_replace _ _ _ (CPok_add _ _ (by simp)
    (CPok_modify _ _ _ (by intro x; exact ⟨rfl, rfl⟩)
      (CPok_add _ _ (by simp) h)))

theorem CPok_rewriteAllToAll (c : Computation) (ata : Instruction)
    (h : c.CPOperandCountOk) :
    (rewriteAllToAll c ata).1.CPOperandCountOk := by
  exact CPok_replace _ _ _ (CPok_add _ _ (by simp)
    (CPok_add _ _ (by simp) h))

theorem CPok_cpFinish (track : Instruction → Bool) (c1 : Computation)
    (startId : Nat) (cp : Instruction) (h : c1.CPOperandCountOk) :
    (cpFinish track c1 startId cp).1.CPOperandCountOk := by
  unfold cpFinish
  cases htr : track cp with
  | false =>
    simp only [htr, Bool.not_false, if_true]
    exact CPok_replace _ _ _ (CPok_add _ _ (by simp)
      (CPok_modify _ _ _ (by intro x; exact ⟨rfl, rfl⟩) h))
  | true =>
    simp only [htr, Bool.not_true, Bool.false_eq_true, if_false]
    exact CPok_replace _ _ _
      (CPok_modify _ _ _ (by intro x; exact ⟨rfl, rfl⟩)
        (CPok_modify _ _ _ (by intro x; exact ⟨rfl, rfl⟩)
          (CPok_modify _ _ _ (by intro x; exact ⟨rfl, rfl⟩)
            (CPok_add _ _ (by simp)
              (CPok_add _ _ (by simp)
                (CPok_modify _ _ _ (by intro x; exact ⟨rfl, rfl⟩) h))))))

theorem CPok_rewriteCollectivePermute
    (infer : List Shape → Except String Shape) (track : Instruction → Bool)
    (c : Computation) (cp : Instruction) (c' : Computation)
    (pr : ReplacedAsync) (h : c.CPOperandCountOk)
    (hok : rewriteCollectivePermute infer track c cp = .ok (c', pr)) :
    c'.CPOperandCountOk := by
  rcases rewriteCollectivePermute_cases infer track c cp (c', pr) hok with
    ⟨operand, hops, hres⟩ | ⟨sh, hl4, hinf, hcase⟩
  · have hc' := congrArg Prod.fst hres
    simp only at hc'
    rw [hc']
    exact CPok_cpFinish _ _ _ _ (CPok_add _ _ (by simp) h)
  · rcases hcase with ⟨_, hres⟩ | ⟨_, hres⟩ <;>
      (have hc' := congrArg Prod.fst hres; simp only at hc'; rw [hc'])
    · exact CPok_cpFinish _ _ _ _ (CPok_add _ _ (by simp) h)
    · exact CPok_cpFinish _ _ _ _
        (CPok_modify _ _ _ (by intro x; exact ⟨rfl, rfl⟩)
          (CPok_add _ _ (by simp) h))

theorem processCandidates_nil (infer : List Shape → Except String Shape)
    (cfg : AsyncCollectiveCreator) (su : Bool) (c : Computation)
    (pairs : List (Nat × ReplacedAsync)) (ch : Bool) :
    processCandidates infer cfg su c [] pairs ch = .ok (c, pairs, ch) := rfl

theorem processCandidates_cons (infer : List Shape → Except String Shape)
    (cfg : AsyncCollectiveCreator) (su : Bool) (c : Computation)
    (id : Nat) (rest : List Nat) (pairs : List (Nat × ReplacedAsync))
    (ch : Bool) :
    processCandidates infer cfg su c (id :: rest) pairs ch =
      match rewriteCandidate infer cfg c id with
      | .error e => .error e
      | .ok (c2, pr, ch2) =>
        processCandidates infer cfg su c2 rest
          (match pr with
           | some p => if su then pairs ++ [(id, p)] else pairs
           | none => pairs)
          (ch || ch2) := rfl

theorem processComputation_def (infer : List Shape → Except String Shape)
    (cfg : AsyncCollectiveCreator) (c : Computation)
    (sched : Option (List Nat)) :
    processComputation infer cfg c sched =
      if ((c.instructions.filter cfg.matchCollective).map
          (fun i => i.id)).isEmpty = true
      then .ok (c, none, false)
      else
        match processCandidates infer cfg sched.isSome c
            ((c.instructions.filter cfg.matchCollective).map (fun i => i.id))
            [] false with
        | .error e => .error e
        | .ok (c2, pairs, changed) =>
          .ok (c2, sched.map (fun seq => patchSchedule pairs seq),
            changed) := rfl

theorem runLoop_nil (infer : List Shape → Except String Shape)
    (cfg : AsyncCollectiveCreator) (threads : List String)
    (sched : Option (List (Nat × List Nat))) (acc : List Computation)
    (ch : Bool) :
    runLoop infer cfg threads sched acc [] ch = .ok ⟨acc, sched⟩ ch := rfl

theorem runLoop_cons (infer : List Shape → Except String Shape)
    (cfg : AsyncCollectiveCreator) (threads : List String)
    (sched : Option (List (Nat × List Nat))) (acc : List Computation)
    (c : Computation) (rest : List Computation) (ch : Bool) :
    runLoop infer cfg threads sched acc (c :: rest) ch =
      if c.isEligible threads then
        match processComputation infer cfg c (schedFor sched c.id) with
        | .error (r, cc) => .fatal r ⟨acc ++ cc :: rest, sched⟩
        | .ok (c2, newSeq, ch2) =>
          runLoop infer cfg threads (updateSched sched c.id newSeq)
            (acc ++ [c2]) rest (ch || ch2)
      else runLoop infer cfg threads sched (acc ++ [c]) rest ch := rfl

theorem rewriteCandidate_CPok
    (infer : List Shape → Except String Shape)
    (cfg : AsyncCollectiveCreator) (c : Computation) (id : Nat)
    (h : c.CPOperandCountOk) :
    (∀ c2 pr ch, rewriteCandidate infer cfg c id = .ok (c2, pr, ch) →
      c2.CPOperandCountOk) ∧
    (∀ r cc, rewriteCandidate infer cfg c id = .error (r, cc) →
      ∃ e, r = .statusOrValue e) := by
  cases hf : c.find? id with
  | none =>
    have hrw : rewriteCandidate infer cfg c id = .ok (c, none, false) := by
      unfold rewriteCandidate
      rw [hf]
    rw [hrw]
    constructor
    · intro c2 pr ch hok
      cases hok
      exact h
    · intro r cc herr
      cases herr
  | some instr =>
    obtain ⟨hmem, hid⟩ := Computation.mem_of_find? hf
    rw [rewriteCandidate_eq_of_find? infer cfg c id instr hf]
    cases hco : instr.opcode
    case allReduce =>
      rw [rewriteInstruction_allReduce infer cfg c instr hco]
      constructor
      · intro c2 pr ch hok
        cases hok
        exact CPok_rewriteAllReduce c instr h
      · intro r cc herr
        cases herr
    case allGather =>
      rw [rewriteInstruction_allGather infer cfg c instr hco]
      constructor
      · intro c2 pr ch hok
        cases hok
        exact CPok_rewriteAllGather c instr h
      · intro r cc herr
        cases herr
    case allToAll =>
      rw [rewriteInstruction_allToAll infer cfg c instr hco]
      constructor
      · intro c2 pr ch hok
        cases hok
        exact CPok_rewriteAllToAll c instr h
      · intro r cc herr
        cases herr
    case collectivePermute =>
      rw [rewriteInstruction_collectivePermute infer cfg c instr hco]
      cases hcp : rewriteCollectivePermute infer cfg.trackSendRecvSeparately
          c instr with
      | ok p =>
        constructor
        · intro c2 pr ch hok
          cases hok
          exact CPok_rewriteCollectivePermute infer
            cfg.trackSendRecvSeparately c instr p.1 p.2 h (by rw [hcp])
        · intro r cc herr
          cases herr
      | error r0 =>
        constructor
        · intro c2 pr ch hok
          cases hok
        · intro r cc herr
          cases herr
          rcases rewriteCollectivePermute_error_cases infer
              cfg.trackSendRecvSeparately c instr r0 hcp with
            ⟨hnil, hr⟩ | ⟨hl1, hl4, hr⟩ | ⟨_, e, _, hr⟩
          · rcases h instr hmem hco with h1 | h4
            · rw [hnil] at h1
              simp at h1
            · rw [hnil] at h4
              simp at h4
          · rcases h instr hmem hco with h1 | h4
            · exact absurd h1 hl1
            · exact absurd h4 hl4
          · exact ⟨e, hr⟩
    all_goals
      rw [rewriteInstruction_not_sync infer cfg c instr (by rw [hco]; rfl)]
      constructor
      · intro c2 pr ch hok
        cases hok
        exact h
      · intro r cc herr
        cases herr

theorem processCandidates_CPok
    (infer : List Shape → Except String Shape)
    (cfg : AsyncCollectiveCreator) (su : Bool) :
    ∀ (ids : List Nat) (c : Computation)
      (pairs : List (Nat × ReplacedAsync)) (ch : Bool),
      c.CPOperandCountOk →
      (∀ c2 pairs2 ch2,
        processCandidates infer cfg su c ids pairs ch = .ok (c2, pairs2, ch2) →
        c2.CPOperandCountOk) ∧
      (∀ r cc,
        processCandidates infer cfg su c ids pairs ch = .error (r, cc) →
        ∃ e, r = .statusOrValue e) := by
  intro ids
  induction ids with
  | nil =>
    intro c pairs ch h
    rw [processCandidates_nil]
    constructor
    · intro c2 pairs2 ch2 hok
      cases hok
      exact h
    · intro r cc herr
      cases herr
  | cons id rest ih =>
    intro c pairs ch h
    obtain ⟨hokstep, herrstep⟩ := rewriteCandidate_CPok infer cfg c id h
    rw [processCandidates_cons]
    cases hrw : rewriteCandidate infer cfg c id with
    | error e =>
      obtain ⟨r0, cc0⟩ := e
      constructor
      · intro c2 pairs2 ch2 hok
        cases hok
      · intro r cc herr
        cases herr
        exact herrstep _ _ hrw
    | ok t =>
      obtain ⟨c1, pr1, ch1⟩ := t
      constructor
      · intro c2 pairs2 ch2 hok
        exact (ih c1 _ _ (hokstep c1 pr1 ch1 hrw)).1 c2 pairs2 ch2 hok
      · intro r cc herr
        exact (ih c1 _ _ (hokstep c1 pr1 ch1 hrw)).2 r cc herr

theorem processComputation_statusOrValue
    (infer : List Shape → Except String Shape)
    (cfg : AsyncCollectiveCreator) (c : Computation)
    (sched : Option (List Nat)) (h : c.CPOperandCountOk)
    (r : FatalReason) (cc : Computation)
    (herr : processComputation infer cfg c sched = .error (r, cc)) :
    ∃ e, r = .statusOrValue e := by
  rw [processComputation_def] at herr
  by_cases hempty : ((c.instructions.filter cfg.matchCollective).map
      (fun i => i.id)).isEmpty = true
  · rw [if_pos hempty] at herr
    cases herr
  · rw [if_neg hempty] at herr
    cases hpc : processCandidates infer cfg sched.isSome c
        ((c.instructions.filter cfg.matchCollective).map (fun i => i.id))
        [] false with
    | error e =>
      obtain ⟨r0, cc0⟩ := e
      rw [hpc] at herr
      cases herr
      exact (processCandidates_CPok infer cfg sched.isSome _ c [] false h).2
        _ _ hpc
    | ok t =>
      obtain ⟨c1, pairs1, ch1⟩ := t
      rw [hpc] at herr
      cases herr

theorem runLoop_statusOrValue
    (infer : List Shape → Except String Shape)
    (cfg : AsyncCollectiveCreator) (threads : List String) :
    ∀ (todo : List Computation) (sched : Option (List (Nat × List Nat)))
      (acc : List Computation) (ch : Bool),
      (∀ c ∈ todo, c.CPOperandCountOk) →
      ∀ r m2, runLoop infer cfg threads sched acc todo ch = .fatal r m2 →
        ∃ e, r = .statusOrValue e := by
  intro todo
  induction todo with
  | nil =>
    intro sched acc ch h r m2 heq
    rw [runLoop_nil] at heq
    cases heq
  | cons c rest ih =>
    intro sched acc ch h r m2 heq
    rw [runLoop_cons] at heq
    by_cases helig : c.isEligible threads = true
    · rw [if_pos helig] at heq
      cases hpc : processComputation infer cfg c (schedFor sched c.id) with
      | error e =>
        obtain ⟨r0, cc0⟩ := e
        rw [hpc] at heq
        cases heq
        exact processComputation_statusOrValue infer cfg c _
          (h c (List.mem_cons_self _ _)) _ _ hpc
      | ok t =>
        obtain ⟨c1, ns1, ch1⟩ := t
        rw [hpc] at heq
        exact ih _ _ _ (fun c2 hc2 => h c2 (List.mem_cons_of_mem _ hc2))
          r m2 heq
    · rw [if_neg helig] at heq
      exact ih _ _ _ (fun c2 hc2 => h c2 (List.mem_cons_of_mem _ hc2))
        r m2 heq

/-- C9: a multi-operand CollectivePermute candidate whose operand count is
neither one nor four makes the pass die on the `CHECK_EQ(operand_count, 4)`
(a crash carrying the mismatched count, not a returned error; with zero
operands the crash happens already at the out-of-range operand access, and
with exactly four operands the assertion passes, any crash there being the
shape-inference `value()` call); under the precondition that every
CollectivePermute has the one- or four-operand form, the `CHECK_EQ` crash is
unreachable: every crash of `Run` is a shape-inference `value()` crash. -/
theorem c9_operand_count_check :
    (∀ (infer : List Shape → Except String Shape)
       (track : Instruction → Bool) (c : Computation) (cp : Instruction),
      cp.operands ≠ [] → cp.operands.length ≠ 1 → cp.operands.length ≠ 4 →
      rewriteCollectivePermute infer track c cp =
        .error (.checkEqOperandCount cp.operands.length)) ∧
    (∀ (infer : List Shape → Except String Shape)
       (track : Instruction → Bool) (c : Computation) (cp : Instruction),
      cp.operands = [] →
      rewriteCollectivePermute infer track c cp =
        .error .operandOutOfRange) ∧
    (∀ (infer : List Shape → Except String Shape)
       (track : Instruction → Bool) (c : Computation) (cp : Instruction)
       (r : FatalReason),
      cp.operands.length = 4 →
      rewriteCollectivePermute infer track c cp = .error r →
      ∃ e, r = .statusOrValue e) ∧
    (∀ (cfg : AsyncCollectiveCreator)
       (infer : List Shape → Except String Shape)
       (threads : List String) (m : HloModule),
      (∀ c ∈ m.computations, c.CPOperandCountOk) →
      ∀ r m', cfg.Run infer threads m = .fatal r m' →
        ∃ e, r = .statusOrValue e) := by
  refine ⟨?_, ?_, ?_, ?_⟩
  · intro infer track c cp hne hl1 hl4
    exact rewriteCollectivePermute_checkEq infer track c cp hne hl1 hl4
  · intro infer track c cp hnil
    unfold rewriteCollectivePermute
    split
    · rfl
    · rename_i operand rest heq
      rw [hnil] at heq
      cases heq
  · intro infer track c cp r hl4 herr
    rcases rewriteCollectivePermute_error_cases infer track c cp r herr with
      ⟨hnil, _⟩ | ⟨_, h4, _⟩ | ⟨_, e, _, hr⟩
    · rw [hnil] at hl4
      simp at hl4
    · exact absurd hl4 h4
    · exact ⟨e, hr⟩
  · intro cfg infer threads m h r m' heq
    exact runLoop_statusOrValue infer cfg threads m.computations m.schedule
      [] false h r m' heq

theorem c9_operand_count_check_witness :
    rewriteCollectivePermute inferOk (fun _ => false) compCP2
      { id := 2, opcode := .collectivePermute, shape := Shape.base 3,
        operands := [0, 1] } =
      .error (.checkEqOperandCount 2) ∧
    (∀ r m', cfgAll.Run inferOk [] modCP4 = .fatal r m' →
      ∃ e, r = .statusOrValue e) :=
  ⟨c9_operand_count_check.1 inferOk (fun _ => false) compCP2
    { id := 2, opcode := .collectivePermute, shape := Shape.base 3,
      operands := [0, 1] }
    (by decide) (by decide) (by decide),
   c9_operand_count_check.2.2.2 cfgAll inferOk [] modCP4 (by
    intro c hc
    simp only [modCP4] at hc
    rw [List.mem_singleton] at hc
    subst hc
    show ∀ i ∈ compCP4.instructions, i.opcode = .collectivePermute →
      i.operands.length = 1 ∨ i.operands.length = 4
    decide)⟩

theorem c6_split_tracking_witness :
    (rewriteCollectivePermute inferOk (fun _ => true) compCP1
      { id := 1, opcode := .collectivePermute, shape := Shape.base 2,
        operands := [0], metadata := 5, backendConfig := 6,
        hasDisjointReadWriteRegions := true }).toOption.get!.2 =
      (⟨3, 4⟩ : ReplacedAsync) ∧
    ∃ recv, (rewriteCollectivePermute inferOk (fun _ => true) compCP1
        { id := 1, opcode := .collectivePermute, shape := Shape.base 2,
          operands := [0], metadata := 5, backendConfig := 6,
          hasDisjointReadWriteRegions := true }).toOption.get!.1.find? 4 =
        some recv ∧
      recv.opcode = .customCall ∧ recv.customCallTarget = "$cp_recv_done" ∧
      recv.shape = Shape.base 2 ∧ recv.operands = [3] ∧
      recv.customCallHasSideEffect = true :=
  ⟨(c6_split_tracking inferOk (fun _ => true) compCP1
      { id := 1, opcode := .collectivePermute, shape := Shape.base 2,
        operands := [0], metadata := 5, backendConfig := 6,
        hasDisjointReadWriteRegions := true }
      _ _ (by decide) (by decide) rfl rfl).1,
   (c6_split_tracking inferOk (fun _ => true) compCP1
      { id := 1, opcode := .collectivePermute, shape := Shape.base 2,
        operands := [0], metadata := 5, backendConfig := 6,
        hasDisjointReadWriteRegions := true }
      _ _ (by decide) (by decide) rfl rfl).2.1⟩


/-! ## Counting candidates and created instructions across the whole pass -/

theorem matchCollective_sync (cfg : AsyncCollectiveCreator) (i : Instruction)
    (h : cfg.matchCollective i = true) :
    i.opcode.isSyncCollective = true := by
  cases hco : i.opcode <;>
    simp_all [AsyncCollectiveCreator.matchCollective,
      HloOpcode.isSyncCollective]

theorem matchCollective_accept_all (cfg : AsyncCollectiveCreator)
    (hAR : ∀ i, cfg.convertAllReduce i = true)
    (hAG : ∀ i, cfg.convertAllGather i = true)
    (hCP : ∀ i, cfg.convertCollectivePermute i = true)
    (hATA : ∀ i, cfg.convertAllToAll i = true)
    (i : Instruction) :
    cfg.matchCollective i = i.opcode.isSyncCollective := by
  cases hco : i.opcode <;>
    simp [AsyncCollectiveCreator.matchCollective, hco, hAR i, hAG i, hCP i,
      hATA i, HloOpcode.isSyncCollective]

theorem sum_ite_filter_sync (q : HloOpcode → String → Bool)
    (l : List Instruction) :
    ((l.filter (fun i => i.opcode.isSyncCollective)).map
      (fun a => if q a.opcode a.customCallTarget then (1 : Nat) else 0)).sum =
    l.countP
      (fun i => i.opcode.isSyncCollective && q i.opcode i.customCallTarget)
    := by
  induction l with
  | nil => rfl
  | cons a t ih =>
    rw [List.filter_cons, List.countP_cons]
    cases hp : a.opcode.isSyncCollective <;>
      cases hq : q a.opcode a.customCallTarget <;>
      simp [hp, hq, ih] <;> omega

theorem createdCount_sync_zero (tk : Bool) (op : HloOpcode) :
    createdCount tk (fun op2 _ => op2.isSyncCollective) op = 0 := by
  cases op <;> cases tk <;> rfl

theorem forall2_exists_left {α β : Type} {R : α → β → Prop}
    {l : List α} {l' : List β} (h : List.Forall₂ R l l') :
    ∀ b ∈ l', ∃ a ∈ l, R a b := by
  induction h with
  | nil => intro b hb; cases hb
  | cons hr ht ih =>
    intro b hb
    rcases List.mem_cons.mp hb with heq | hb2
    · exact ⟨_, List.mem_cons_self _ _, heq ▸ hr⟩
    · rcases ih b hb2 with ⟨a, ha, hra⟩
      exact ⟨a, List.mem_cons_of_mem _ ha, hra⟩

theorem processCandidates_count
    (infer : List Shape → Except String Shape)
    (cfg : AsyncCollectiveCreator) (tk : Bool)
    (htk : ∀ i, cfg.trackSendRecvSeparately i = tk) (su : Bool) :
    ∀ (cands : List Instruction) (c : Computation)
      (pairs : List (Nat × ReplacedAsync)) (ch : Bool),
      c.WF →
      (cands.map (fun a => a.id)).Nodup →
      (∀ a ∈ cands, ∃ b, c.find? a.id = some b ∧
        b.opcode = a.opcode ∧ b.customCallTarget = a.customCallTarget) →
      (∀ a ∈ cands, a.opcode.isSyncCollective = true) →
      ∀ c' pairs' ch',
      processCandidates infer cfg su c (cands.map (fun a => a.id))
        pairs ch = .ok (c', pairs', ch') →
      c'.WF ∧ c.nextId ≤ c'.nextId ∧
      c'.executionThread = c.executionThread ∧
      c'.isFusionComputation = c.isFusionComputation ∧
      c'.id = c.id ∧
      (∀ q, sigCount c' q +
          (cands.map
            (fun a => if q a.opcode a.customCallTarget then 1 else 0)).sum =
        sigCount c q +
          (cands.map (fun a => createdCount tk q a.opcode)).sum) := by
  intro cands
  induction cands with
  | nil =>
    intro c pairs ch hwf hnd hlive hsync c' pairs' ch' hok
    rw [List.map_nil, processCandidates_nil] at hok
    simp only [Except.ok.injEq, Prod.mk.injEq] at hok
    obtain ⟨h1, h2, h3⟩ := hok
    subst h1
    exact ⟨hwf, Nat.le_refl _, rfl, rfl, rfl, fun q => rfl⟩
  | cons a rest ih =>
    intro c pairs ch hwf hnd hlive hsync c' pairs' ch' hok
    rw [List.map_cons, processCandidates_cons] at hok
    obtain ⟨b, hfb, hbo, hbt⟩ := hlive a (List.mem_cons_self a rest)
    cases hrc : rewriteCandidate infer cfg c a.id with
    | error e =>
      rw [hrc] at hok
      cases hok
    | ok x =>
      obtain ⟨c2, pr, ch2⟩ := x
      rw [hrc] at hok
      have hsa : b.opcode.isSyncCollective = true := by
        rw [hbo]; exact hsync a (List.mem_cons_self a rest)
      obtain ⟨hwf2, hnext2, hth2, hfus2, hid2, hother2, hcount2⟩ :=
        rewriteCandidate_step infer cfg tk htk c a.id b hwf hfb hsa
          c2 pr ch2 hrc
      have hnd2 : (rest.map (fun a => a.id)).Nodup := (List.nodup_cons.mp hnd).2
      have hnotmem : a.id ∉ rest.map (fun a => a.id) :=
        (List.nodup_cons.mp hnd).1
      have hlive2 : ∀ a2 ∈ rest, ∃ b2, c2.find? a2.id = some b2 ∧
          b2.opcode = a2.opcode ∧
          b2.customCallTarget = a2.customCallTarget := by
        intro a2 ha2
        obtain ⟨b2, hfb2, hbo2, hbt2⟩ := hlive a2 (List.mem_cons_of_mem a ha2)
        have hne : a2.id ≠ a.id := by
          intro hcontra
          exact hnotmem (hcontra ▸ List.mem_map_of_mem (fun a => a.id) ha2)
        obtain ⟨b3, hfb3, hbo3, hbt3⟩ := hother2 a2.id b2 hne hfb2
        exact ⟨b3, hfb3, hbo3.trans hbo2, hbt3.trans hbt2⟩
      have hsync2 : ∀ a2 ∈ rest, a2.opcode.isSyncCollective = true :=
        fun a2 ha2 => hsync a2 (List.mem_cons_of_mem a ha2)
      obtain ⟨hwf', hnext', hth', hfus', hid', hcount'⟩ :=
        ih c2 _ _ hwf2 hnd2 hlive2 hsync2 c' pairs' ch' hok
      refine ⟨hwf', Nat.le_trans hnext2 hnext', hth'.trans hth2,
        hfus'.trans hfus2, hid'.trans hid2, ?_⟩
      intro q
      have h1 := hcount2 q
      have h2 := hcount' q
      rw [hbo, hbt] at h1
      simp only [List.map_cons, List.sum_cons]
      omega

theorem processComputation_count
    (infer : List Shape → Except String Shape)
    (cfg : AsyncCollectiveCreator) (tk : Bool)
    (htk : ∀ i, cfg.trackSendRecvSeparately i = tk)
    (c : Computation) (sched : Option (List Nat)) (hwf : c.WF)
    (c' : Computation) (ns : Option (List Nat)) (ch : Bool)
    (hok : processComputation infer cfg c sched = .ok (c', ns, ch)) :
    c'.WF ∧ c.nextId ≤ c'.nextId ∧
    c'.executionThread = c.executionThread ∧
    c'.isFusionComputation = c.isFusionComputation ∧
    c'.id = c.id ∧
    (∀ q, sigCount c' q +
        ((c.instructions.filter cfg.matchCollective).map
          (fun a => if q a.opcode a.customCallTarget then 1 else 0)).sum =
      sigCount c q +
        ((c.instructions.filter cfg.matchCollective).map
          (fun a => createdCount tk q a.opcode)).sum) := by
  rw [processComputation_def] at hok
  by_cases hemp : ((c.instructions.filter cfg.matchCollective).map
      (fun i => i.id)).isEmpty = true
  · rw [if_pos hemp] at hok
    have hnil : c.instructions.filter cfg.matchCollective = [] :=
      List.map_eq_nil_iff.mp (List.isEmpty_iff.mp hemp)
    simp only [Except.ok.injEq, Prod.mk.injEq] at hok
    obtain ⟨h1, h2, h3⟩ := hok
    subst h1
    exact ⟨hwf, Nat.le_refl _, rfl, rfl, rfl, fun q => by rw [hnil]; simp⟩
  · rw [if_neg hemp] at hok
    cases hpc : processCandidates infer cfg sched.isSome c
        ((c.instructions.filter cfg.matchCollective).map (fun i => i.id))
        [] false with
    | error e =>
      rw [hpc] at hok
      cases hok
    | ok t =>
      obtain ⟨c2, pairs2, ch2⟩ := t
      rw [hpc] at hok
      simp only [Except.ok.injEq, Prod.mk.injEq] at hok
      obtain ⟨h1, h2, h3⟩ := hok
      subst h1
      have hnd : ((c.instructions.filter cfg.matchCollective).map
          (fun a => a.id)).Nodup :=
        List.Nodup.sublist
          (List.Sublist.map _ (List.filter_sublist c.instructions)) hwf.1
      have hlive : ∀ a ∈ c.instructions.filter cfg.matchCollective,
          ∃ b, c.find? a.id = some b ∧ b.opcode = a.opcode ∧
            b.customCallTarget = a.customCallTarget :=
        fun a ha =>
          ⟨a, Computation.find?_mem_of_wf hwf (List.mem_of_mem_filter ha),
            rfl, rfl⟩
      have hsync : ∀ a ∈ c.instructions.filter cfg.matchCollective,
          a.opcode.isSyncCollective = true :=
        fun a ha => matchCollective_sync cfg a (List.of_mem_filter ha)
      exact processCandidates_count infer cfg tk htk sched.isSome
        (c.instructions.filter cfg.matchCollective) c [] false hwf hnd hlive
        hsync c2 pairs2 ch2 hpc

theorem processComputation_replaced
    (infer : List Shape → Except String Shape)
    (cfg : AsyncCollectiveCreator) (tk : Bool)
    (hAR : ∀ i, cfg.convertAllReduce i = true)
    (hAG : ∀ i, cfg.convertAllGather i = true)
    (hCP : ∀ i, cfg.convertCollectivePermute i = true)
    (hATA : ∀ i, cfg.convertAllToAll i = true)
    (htk : ∀ i, cfg.trackSendRecvSeparately i = tk)
    (c : Computation) (sched : Option (List Nat)) (hwf : c.WF)
    (c' : Computation) (ns : Option (List Nat)) (ch : Bool)
    (hok : processComputation infer cfg c sched = .ok (c', ns, ch)) :
    Computation.AsyncReplaced tk c c' := by
  obtain ⟨_, _, _, _, _, hcount⟩ :=
    processComputation_count infer cfg tk htk c sched hwf c' ns ch hok
  have hfil : c.instructions.filter cfg.matchCollective =
      c.instructions.filter (fun i => i.opcode.isSyncCollective) :=
    List.filter_congr
      (fun a _ => matchCollective_accept_all cfg hAR hAG hCP hATA a)
  have hall : ∀ q : HloOpcode → String → Bool,
      sigCount c' q +
        sigCount c (fun op s => op.isSyncCollective && q op s) =
      sigCount c q +
        ((c.instructions.filter (fun i => i.opcode.isSyncCollective)).map
          (fun a => createdCount tk q a.opcode)).sum := by
    intro q
    have h := hcount q
    rw [hfil, sum_ite_filter_sync] at h
    exact h
  refine ⟨hall, ?_⟩
  have h1 := hall (fun op _ => op.isSyncCollective)
  have hz : ((c.instructions.filter
      (fun i => i.opcode.isSyncCollective)).map
      (fun a => createdCount tk (fun op _ => op.isSyncCollective)
        a.opcode)).sum = 0 := by
    apply List.sum_eq_zero
    intro x hx
    rw [List.mem_map] at hx
    obtain ⟨a, _, hax⟩ := hx
    rw [← hax]
    exact createdCount_sync_zero tk a.opcode
  rw [hz] at h1
  simp only [Bool.and_self] at h1
  omega

theorem runLoop_forall2
    (infer : List Shape → Except String Shape)
    (cfg : AsyncCollectiveCreator) (threads : List String) (tk : Bool)
    (hAR : ∀ i, cfg.convertAllReduce i = true)
    (hAG : ∀ i, cfg.convertAllGather i = true)
    (hCP : ∀ i, cfg.convertCollectivePermute i = true)
    (hATA : ∀ i, cfg.convertAllToAll i = true)
    (htk : ∀ i, cfg.trackSendRecvSeparately i = tk) :
    ∀ (todo : List Computation) (sched : Option (List (Nat × List Nat)))
      (acc : List Computation) (ch : Bool),
      (∀ c ∈ todo, c.WF) →
      ∀ m' ch', runLoop infer cfg threads sched acc todo ch = .ok m' ch' →
      ∃ procs, m'.computations = acc ++ procs ∧
        List.Forall₂ (fun c c' =>
          (c.isEligible threads = true → Computation.AsyncReplaced tk c c') ∧
          (c.isEligible threads = false → c' = c)) todo procs := by
  intro todo
  induction todo with
  | nil =>
    intro sched acc ch hwf m' ch' hok
    rw [runLoop_nil] at hok
    simp only [RunResult.ok.injEq] at hok
    refine ⟨[], ?_, List.Forall₂.nil⟩
    rw [← hok.1]
    simp
  | cons c rest ih =>
    intro sched acc ch hwf m' ch' hok
    rw [runLoop_cons] at hok
    by_cases helig : c.isEligible threads = true
    · rw [if_pos helig] at hok
      cases hpc : processComputation infer cfg c (schedFor sched c.id) with
      | error e =>
        obtain ⟨r0, cc0⟩ := e
        rw [hpc] at hok
        cases hok
      | ok t =>
        obtain ⟨c2, ns2, ch2⟩ := t
        rw [hpc] at hok
        obtain ⟨procs, hcomp, hrel⟩ :=
          ih _ _ _ (fun c3 hc3 => hwf c3 (List.mem_cons_of_mem _ hc3))
            m' ch' hok
        refine ⟨c2 :: procs, ?_, ?_⟩
        · rw [hcomp, List.append_assoc]
          rfl
        · refine List.Forall₂.cons ⟨fun _ => ?_, fun hne => ?_⟩ hrel
          · exact processComputation_replaced infer cfg tk hAR hAG hCP hATA
              htk c _ (hwf c (List.mem_cons_self _ _)) c2 ns2 ch2 hpc
          · rw [helig] at hne
            cases hne
    · rw [if_neg helig] at hok
      obtain ⟨procs, hcomp, hrel⟩ :=
        ih _ _ _ (fun c3 hc3 => hwf c3 (List.mem_cons_of_mem _ hc3))
          m' ch' hok
      refine ⟨c :: procs, ?_, ?_⟩
      · rw [hcomp, List.append_assoc]
        rfl
      · exact List.Forall₂.cons
          ⟨fun he => absurd he helig, fun _ => rfl⟩ hrel

/-- C1: when the four per-kind predicates accept every instruction, a
successful `Run` pairs each eligible computation with a result in which
every synchronous collective (AllReduce, AllGather, CollectivePermute,
AllToAll) has been traded for exactly one start and one done instruction
(for collective-permute under split tracking, the recv-done/send-done
custom-call pair), and no instruction of the four synchronous kinds
remains. -/
theorem c1_all_replaced
    (infer : List Shape → Except String Shape)
    (cfg : AsyncCollectiveCreator) (threads : List String) (tk : Bool)
    (hAR : ∀ i, cfg.convertAllReduce i = true)
    (hAG : ∀ i, cfg.convertAllGather i = true)
    (hCP : ∀ i, cfg.convertCollectivePermute i = true)
    (hATA : ∀ i, cfg.convertAllToAll i = true)
    (htk : ∀ i, cfg.trackSendRecvSeparately i = tk)
    (m : HloModule) (hwf : ∀ c ∈ m.computations, c.WF)
    (m' : HloModule) (ch : Bool)
    (hok : cfg.Run infer threads m = .ok m' ch) :
    List.Forall₂ (fun c c' =>
      c.isEligible threads = true → Computation.AsyncReplaced tk c c')
      m.computations m'.computations := by
  obtain ⟨procs, hcomp, hrel⟩ :=
    runLoop_forall2 infer cfg threads tk hAR hAG hCP hATA htk
      m.computations m.schedule [] false hwf m' ch hok
  rw [List.nil_append] at hcomp
  rw [hcomp]
  exact List.Forall₂.imp (fun a b hab => hab.1) hrel

theorem c1_all_replaced_witness :
    List.Forall₂ (fun c c' =>
      c.isEligible [] = true → Computation.AsyncReplaced false c c')
      modAR.computations modARafter.computations :=
  c1_all_replaced inferOk cfgAll [] false (fun _ => rfl) (fun _ => rfl)
    (fun _ => rfl) (fun _ => rfl) (fun _ => rfl) modAR
    (fun c hc => by
      rw [show modAR.computations = [compAR] from rfl,
        List.mem_singleton] at hc
      subst hc
      exact ⟨by decide, by decide⟩)
    modARafter true rfl

/-! ## A second run of the pass is a no-op -/

theorem processComputation_untouched
    (infer : List Shape → Except String Shape)
    (cfg : AsyncCollectiveCreator) (c : Computation)
    (sched : Option (List Nat))
    (h : c.instructions.filter cfg.matchCollective = []) :
    processComputation infer cfg c sched = .ok (c, none, false) := by
  simp [processComputation, h]

theorem runLoop_id
    (infer : List Shape → Except String Shape)
    (cfg : AsyncCollectiveCreator) (threads : List String) :
    ∀ (todo : List Computation) (sched : Option (List (Nat × List Nat)))
      (acc : List Computation),
      (∀ c ∈ todo, c.isEligible threads = true →
        c.instructions.filter cfg.matchCollective = []) →
      runLoop infer cfg threads sched acc todo false =
        .ok ⟨acc ++ todo, sched⟩ false := by
  intro todo
  induction todo with
  | nil =>
    intro sched acc hemp
    rw [runLoop_nil, List.append_nil]
  | cons c rest ih =>
    intro sched acc hemp
    rw [runLoop_cons]
    by_cases helig : c.isEligible threads = true
    · rw [if_pos helig]
      rw [processComputation_untouched infer cfg c _
        (hemp c (List.mem_cons_self _ _) helig)]
      show runLoop infer cfg threads sched (acc ++ [c]) rest false =
        .ok ⟨acc ++ c :: rest, sched⟩ false
      rw [ih sched (acc ++ [c])
        (fun c2 hc2 => hemp c2 (List.mem_cons_of_mem _ hc2))]
      simp
    · rw [if_neg helig]
      rw [ih sched (acc ++ [c])
        (fun c2 hc2 => hemp c2 (List.mem_cons_of_mem _ hc2))]
      simp

/-- C8: running the pass again on the module a successful run produced,
with the same accept-all predicates for the four synchronous collective
kinds, performs no mutation at all: it returns the module unchanged with
`changed = false`, because the synchronous kinds no longer occur. -/
theorem c8_second_run_noop
    (infer : List Shape → Except String Shape)
    (cfg : AsyncCollectiveCreator) (threads : List String) (tk : Bool)
    (hAR : ∀ i, cfg.convertAllReduce i = true)
    (hAG : ∀ i, cfg.convertAllGather i = true)
    (hCP : ∀ i, cfg.convertCollectivePermute i = true)
    (hATA : ∀ i, cfg.convertAllToAll i = true)
    (htk : ∀ i, cfg.trackSendRecvSeparately i = tk)
    (m : HloModule) (hwf : ∀ c ∈ m.computations, c.WF)
    (m' : HloModule) (ch : Bool)
    (hok : cfg.Run infer threads m = .ok m' ch) :
    cfg.Run infer threads m' = .ok m' false := by
  obtain ⟨procs, hcomp, hrel⟩ :=
    runLoop_forall2 infer cfg threads tk hAR hAG hCP hATA htk
      m.computations m.schedule [] false hwf m' ch hok
  rw [List.nil_append] at hcomp
  have hemp : ∀ c' ∈ m'.computations, c'.isEligible threads = true →
      c'.instructions.filter cfg.matchCollective = [] := by
    intro c' hc' helig'
    rw [hcomp] at hc'
    obtain ⟨c, hc, hR⟩ := forall2_exists_left hrel c' hc'
    by_cases he : c.isEligible threads = true
    · have hz := (hR.1 he).2
      have h0 : c'.instructions.countP
          (fun i => i.opcode.isSyncCollective) = 0 := hz
      rw [List.filter_eq_nil_iff]
      intro a ha hma
      exact List.countP_eq_zero.mp h0 a ha (matchCollective_sync cfg a hma)
    · have hfe : c.isEligible threads = false := by
        revert he
        cases c.isEligible threads <;> simp
      have hcc := hR.2 hfe
      rw [hcc, hfe] at helig'
      cases helig'
  have hrun := runLoop_id infer cfg threads m'.computations m'.schedule []
    hemp
  show runLoop infer cfg threads m'.schedule [] m'.computations false =
    .ok m' false
  rw [hrun]
  rfl

theorem c8_second_run_noop_witness :
    AsyncCollectiveCreator.Run cfgAll inferOk [] modARafter =
      .ok modARafter false :=
  c8_second_run_noop inferOk cfgAll [] false (fun _ => rfl) (fun _ => rfl)
    (fun _ => rfl) (fun _ => rfl) (fun _ => rfl) modAR
    (fun c hc => by
      rw [show modAR.computations = [compAR] from rfl,
        List.mem_singleton] at hc
      subst hc
      exact ⟨by decide, by decide⟩)
    modARafter true rfl

end xla
